import Mathlib

/-!
Verification development for the nufatfs FAT12/16/32 filesystem driver.

The TypeScript sources are embedded shallowly:

* byte buffers (`Uint8Array`, `DataView`) become `List Nat` of byte values,
  with the little-endian `DataView` accessors spelled out;
* JavaScript 32-bit integer operators (`|`, `&`, `<<` with ToInt32/ToUint32
  coercion) are modelled by `jsOr`, `jsAnd`, `jsShl` over `Int`;
* in-place mutation becomes explicit state passing;
* a `throw` becomes an `Except.error` / `Option.none` result.

Definitions follow the structure and names of the source files
(`utils.ts`, `constructors.ts`, `cluster-allocator.ts`, `chained-structures.ts`,
`low-level.ts`, `high-level.ts`).
-/

/-! ## JavaScript number model (32-bit integer operators)

JavaScript bitwise operators first coerce their operands with ToUint32/ToInt32
(wrap modulo 2^32, then reinterpret as a signed 32-bit value); shift counts are
taken modulo 32. -/

/-- ToUint32: wrap an integer to `[0, 2^32)`. -/
def toUint32 (x : Int) : Nat := (x % 4294967296).toNat

/-- ToInt32: wrap a natural number to a signed 32-bit value. -/
def toInt32 (n : Nat) : Int :=
  if n % 4294967296 < 2147483648 then (n % 4294967296 : Int)
  else (n % 4294967296 : Int) - 4294967296

/-- JavaScript `a | b` on numbers. -/
def jsOr (a b : Int) : Int := toInt32 (toUint32 a ||| toUint32 b)

/-- JavaScript `a & b` on numbers. -/
def jsAnd (a b : Int) : Int := toInt32 (toUint32 a &&& toUint32 b)

/-- JavaScript `a << k` on numbers (shift count reduced modulo 32). -/
def jsShl (a : Int) (k : Nat) : Int := toInt32 (toUint32 a <<< (k % 32))

/-! ## DataView little-endian accessors over a byte buffer

The FAT is held as `DataView(rawFat.buffer)`; a buffer is a `List Nat` of byte
values.  `set` past the end of the list is a no-op, so theorems about writes
carry an explicit in-bounds hypothesis (a JS `DataView` write out of range
throws a `RangeError`; the checked variants below model that). -/

def getUint8 (buf : List Nat) (i : Nat) : Nat := buf.getD i 0

def getUint16 (buf : List Nat) (i : Nat) : Nat :=
  getUint8 buf i + 256 * getUint8 buf (i + 1)

def getUint32 (buf : List Nat) (i : Nat) : Nat :=
  getUint8 buf i + 256 * getUint8 buf (i + 1) + 65536 * getUint8 buf (i + 2) +
    16777216 * getUint8 buf (i + 3)

def setUint8 (buf : List Nat) (i : Nat) (v : Nat) : List Nat :=
  buf.set i (v % 256)

def setUint16 (buf : List Nat) (i : Nat) (v : Nat) : List Nat :=
  (buf.set i (v % 256)).set (i + 1) (v / 256 % 256)

def setUint32 (buf : List Nat) (i : Nat) (v : Nat) : List Nat :=
  (((buf.set i (v % 256)).set (i + 1) (v / 256 % 256)).set
    (i + 2) (v / 65536 % 256)).set (i + 3) (v / 16777216 % 256)

/-! ## FAT entry read/write (`low-level.ts`, `LowLevelFatFilesystem`)

`readFATClusterEntry` / `writeFATClusterEntry` branch on the FAT width.  All
intermediate values are below `2^31`, where the JS `| & << >>>` operators agree
with the `Nat` bitwise operators used here (`next` is a cluster number or EOC
marker, below `2^28`).  The dirty-sector bookkeeping (`alteredFATSectors`,
`fatAltered`) is not modelled; no claim concerns it. -/

inductive FatType
  | Fat12
  | Fat16
  | Fat32
deriving DecidableEq, Repr

def readFATClusterEntry (ft : FatType) (fatContents : List Nat) (number : Nat) : Nat :=
  match ft with
  | .Fat12 =>
    let base := number / 2 * 3
    let baseContents := getUint16 fatContents base ||| (getUint8 fatContents (base + 2) <<< 16)
    if number % 2 = 1 then (baseContents &&& 0xFFF000) >>> 12
    else baseContents &&& 0xFFF
  | .Fat16 => getUint16 fatContents (number * 2)
  | .Fat32 => getUint32 fatContents (number * 4)

def writeFATClusterEntry (ft : FatType) (fatContents : List Nat) (number next : Nat) :
    List Nat :=
  match ft with
  | .Fat12 =>
    let base := number / 2 * 3
    let bc := getUint16 fatContents base ||| (getUint8 fatContents (base + 2) <<< 16)
    let bc2 := if number % 2 = 1 then (bc &&& 0x000FFF) ||| (next <<< 12)
               else (bc &&& 0xFFF000) ||| next
    setUint8 (setUint16 fatContents base (bc2 &&& 0xFFFF)) (base + 2) (bc2 >>> 16)
  | .Fat16 => setUint16 fatContents (number * 2) next
  | .Fat32 => setUint32 fatContents (number * 4) next

/-! ### Arithmetic helpers for the bit-level proofs -/

theorem nat_and_fff (x : Nat) : x &&& 0xFFF = x % 4096 := by
  have h : (0xFFF : Nat) = 2 ^ 12 - 1 := by norm_num
  rw [h, Nat.and_pow_two_sub_one_eq_mod]

theorem nat_and_ffff (x : Nat) : x &&& 0xFFFF = x % 65536 := by
  have h : (0xFFFF : Nat) = 2 ^ 16 - 1 := by norm_num
  rw [h, Nat.and_pow_two_sub_one_eq_mod]

theorem nat_and_fff000 (x : Nat) : x &&& 0xFFF000 = x / 4096 % 4096 * 4096 := by
  have h4096 : x / 4096 % 4096 * 4096 = (x >>> 12 &&& (2 ^ 12 - 1)) <<< 12 := by
    rw [Nat.and_pow_two_sub_one_eq_mod, Nat.shiftRight_eq_div_pow, Nat.shiftLeft_eq]
  rw [h4096]
  have hc : (0xFFF000 : Nat) = 2 ^ 12 * (2 ^ 12 - 1) := by norm_num
  apply Nat.eq_of_testBit_eq
  intro i
  rw [hc]
  simp only [Nat.testBit_and, Nat.testBit_shiftLeft, Nat.testBit_shiftRight,
    Nat.testBit_mul_pow_two, Nat.testBit_two_pow_sub_one]
  by_cases h12 : 12 ≤ i
  · have h2 : 12 + (i - 12) = i := by omega
    simp only [ge_iff_le, h12, decide_eq_true_eq, h2, Bool.true_and, if_pos]
    cases hx : x.testBit i <;> simp
  · simp only [ge_iff_le, h12, Bool.false_and, Bool.and_false, if_neg,
      decide_eq_true_eq]
    simp [h12]

theorem nat_shl_12 (x : Nat) : x <<< 12 = x * 4096 := by
  rw [Nat.shiftLeft_eq]

theorem nat_shl_16 (x : Nat) : x <<< 16 = x * 65536 := by
  rw [Nat.shiftLeft_eq]

theorem nat_shr_12 (x : Nat) : x >>> 12 = x / 4096 := by
  rw [Nat.shiftRight_eq_div_pow]

theorem nat_shr_16 (x : Nat) : x >>> 16 = x / 65536 := by
  rw [Nat.shiftRight_eq_div_pow]

theorem nat_or_disjoint_low (h b : Nat) (hb : b < 65536) :
    b ||| h * 65536 = h * 65536 + b := by
  have e : (2 : Nat) ^ 16 = 65536 := by norm_num
  have hb2 : b < 2 ^ 16 := by rw [e]; exact hb
  have h2 := Nat.mul_add_lt_is_or hb2 h
  rw [e] at h2
  rw [Nat.or_comm, Nat.mul_comm]
  omega

theorem nat_or_disjoint_12 (h b : Nat) (hb : b < 4096) :
    h * 4096 ||| b = h * 4096 + b := by
  have e : (2 : Nat) ^ 12 = 4096 := by norm_num
  have hb2 : b < 2 ^ 12 := by rw [e]; exact hb
  have h2 := Nat.mul_add_lt_is_or hb2 h
  rw [e] at h2
  rw [Nat.mul_comm]
  omega

theorem getD_set_self (l : List Nat) (i : Nat) (a : Nat) (h : i < l.length) :
    (l.set i a).getD i 0 = a := by
  simp [List.getD_eq_getElem?_getD, List.getElem?_set_self', h]

theorem getD_set_ne (l : List Nat) {i j : Nat} (a : Nat) (h : i ≠ j) :
    (l.set i a).getD j 0 = l.getD j 0 := by
  simp [List.getD_eq_getElem?_getD, List.getElem?_set_ne h]

theorem nat_or_disjoint_12r (h b : Nat) (hb : b < 4096) :
    b ||| h * 4096 = h * 4096 + b := by
  rw [Nat.or_comm]
  exact nat_or_disjoint_12 h b hb

/-- Storing a 24-bit group (low 16 bits via `setUint16`, high 8 via `setUint8`)
and re-reading it with `getUint16`/`getUint8` recovers the value. -/
theorem recompose_bytes (buf : List Nat) (i d : Nat) (hd : d < 16777216)
    (hlen : i + 3 ≤ buf.length) :
    getUint16 (setUint8 (setUint16 buf i (d &&& 0xFFFF)) (i + 2) (d >>> 16)) i |||
      getUint8 (setUint8 (setUint16 buf i (d &&& 0xFFFF)) (i + 2) (d >>> 16)) (i + 2) <<< 16
      = d := by
  simp only [setUint8, setUint16, getUint16, getUint8, nat_and_ffff, nat_shr_16]
  have l0 : (((buf.set i (d % 65536 % 256)).set (i + 1) (d % 65536 / 256 % 256)).set
      (i + 2) (d / 65536 % 256)).getD i 0 = d % 65536 % 256 := by
    rw [getD_set_ne _ _ (by omega), getD_set_ne _ _ (by omega), getD_set_self]
    simpa using by omega
  have l1 : (((buf.set i (d % 65536 % 256)).set (i + 1) (d % 65536 / 256 % 256)).set
      (i + 2) (d / 65536 % 256)).getD (i + 1) 0 = d % 65536 / 256 % 256 := by
    rw [getD_set_ne _ _ (by omega), getD_set_self]
    simpa using by omega
  have l2 : (((buf.set i (d % 65536 % 256)).set (i + 1) (d % 65536 / 256 % 256)).set
      (i + 2) (d / 65536 % 256)).getD (i + 2) 0 = d / 65536 % 256 := by
    rw [getD_set_self]
    simpa using by omega
  rw [l0, l1, l2, nat_shl_16, nat_or_disjoint_low _ _ (by omega)]
  omega

/-- **C4**: on a FAT12 volume, writing 12-bit values `v` to entry `2n` and `v'`
to entry `2n+1` with `writeFATClusterEntry` and reading both entries back with
`readFATClusterEntry` yields exactly `(v, v')`, regardless of the initial
contents of the FAT buffer outside those two 12-bit slots. -/
theorem fat12_packing (buf : List Nat) (n v v' : Nat)
    (hv : v < 0x1000) (hv' : v' < 0x1000) (hlen : 3 * n + 3 ≤ buf.length) :
    readFATClusterEntry .Fat12
        (writeFATClusterEntry .Fat12 (writeFATClusterEntry .Fat12 buf (2 * n) v)
          (2 * n + 1) v') (2 * n) = v ∧
    readFATClusterEntry .Fat12
        (writeFATClusterEntry .Fat12 (writeFATClusterEntry .Fat12 buf (2 * n) v)
          (2 * n + 1) v') (2 * n + 1) = v' := by
  have hb0 : 2 * n / 2 * 3 = 3 * n := by omega
  have hb1 : (2 * n + 1) / 2 * 3 = 3 * n := by omega
  have hp0 : (2 * n % 2 = 1) = False := by simp only [eq_iff_iff, iff_false]; omega
  have hp1 : ((2 * n + 1) % 2 = 1) = True := by
    simp only [eq_iff_iff, iff_true]; omega
  simp only [writeFATClusterEntry, readFATClusterEntry, hb0, hb1, hp0, hp1,
    if_true, if_false]
  set c := getUint16 buf (3 * n) ||| getUint8 buf (3 * n + 2) <<< 16 with hc
  have hcd : c &&& 0xFFF000 = c / 4096 % 4096 * 4096 := nat_and_fff000 c
  set m := c / 4096 % 4096 with hm
  have hm4 : m < 4096 := by omega
  have hd1 : c &&& 0xFFF000 ||| v = m * 4096 + v := by
    rw [hcd, nat_or_disjoint_12 _ _ (by omega)]
  rw [hd1]
  have hd1lt : m * 4096 + v < 16777216 := by omega
  rw [recompose_bytes buf (3 * n) (m * 4096 + v) hd1lt (by omega)]
  have hfff : (m * 4096 + v) &&& 0xFFF = v := by
    rw [nat_and_fff]; omega
  rw [hfff, nat_shl_12, nat_or_disjoint_12r _ _ (by omega)]
  have hd2lt : v' * 4096 + v < 16777216 := by omega
  rw [recompose_bytes _ (3 * n) (v' * 4096 + v) hd2lt
    (by simp only [setUint8, setUint16, List.length_set]; omega)]
  constructor
  · rw [nat_and_fff]; omega
  · rw [nat_and_fff000, nat_shr_12]
    have : (v' * 4096 + v) / 4096 % 4096 = v' := by omega
    rw [this]
    omega

/-- Witness for **C4** at `n = 1`, `v = 0xABC`, `v' = 0x123` on a 6-byte buffer. -/
theorem fat12_packing_witness :
    readFATClusterEntry .Fat12
        (writeFATClusterEntry .Fat12
          (writeFATClusterEntry .Fat12 [0, 0, 0, 7, 7, 7] 2 0xABC) 3 0x123) 2 = 0xABC ∧
    readFATClusterEntry .Fat12
        (writeFATClusterEntry .Fat12
          (writeFATClusterEntry .Fat12 [0, 0, 0, 7, 7, 7] 2 0xABC) 3 0x123) 3 = 0x123 :=
  fat12_packing [0, 0, 0, 7, 7, 7] 1 0xABC 0x123 (by norm_num) (by norm_num) (by norm_num)

/-! ## `utils.ts`: `structFormatUnpack`

The format interpreter walks the format string, maintaining the pending repeat
count and the data cursor.  JS numbers that can go negative are `Int`; byte
reads outside the data coerce like JS `undefined` (`ToInt32(undefined) = 0`).
`jsToLower` is JS `toLowerCase`, which agrees with `Char.toLower` on the ASCII
format letters used here. -/

inductive StructFormatResult
  | int (i : Int)
  | bytes (b : List Nat)
deriving DecidableEq, Repr

inductive Endianness
  | BIG
  | LITTLE
deriving DecidableEq, Repr

def TypeSizeMap (c : Char) : Option Nat :=
  if c = 'b' then some 1
  else if c = 'c' then some 1
  else if c = 'h' then some 2
  else if c = 'i' then some 4
  else if c = 'l' then some 4
  else if c = 'q' then some 8
  else none

def jsToLower (c : Char) : Char := c.toLower

/-- The byte-combining loop `resultingInteger = (resultingInteger << 8) | byte`
over `bytes = data.slice(dataIndex, dataIndex + byteCount)`. -/
def formInteger (en : Endianness) (bytes : List Nat) (byteCount : Nat) : Int :=
  (List.range byteCount).foldl
    (fun r j =>
      let index := match en with
        | .LITTLE => byteCount - 1 - j
        | .BIG => j
      jsOr (jsShl r 8) ((bytes.getD index 0 : Nat) : Int))
    0

/-- The sign-handling step of `structFormatUnpack`.  The source comment reads
"Is upper-case, so unsigned", yet the branch guarded by that comment is the one
that applies the two's-complement conversion. -/
def signAdjust (c : Char) (byteCount : Nat) (r : Int) : Int :=
  if jsToLower c ≠ c then
    let signBitMask := jsShl 1 (byteCount * 8 - 1)
    if jsAnd r signBitMask ≠ 0 then jsAnd r (signBitMask - 1) - signBitMask else r
  else r

def structFormatUnpackGo (data : List Nat) (en : Endianness) :
    List Char → Nat → Nat → List StructFormatResult → List StructFormatResult
  | [], _, _, output => output
  | ch :: rest, rep, dataIndex, output =>
    if ch.isDigit then
      structFormatUnpackGo data en rest (rep * 10 + (ch.toNat - 48)) dataIndex output
    else if ch = 'x' then
      structFormatUnpackGo data en rest 0 (dataIndex + max 1 rep) output
    else if (TypeSizeMap (jsToLower ch)).isSome then
      let byteCount := (TypeSizeMap (jsToLower ch)).getD 1
      let count := max 1 rep
      let newOutput := output ++ (List.range count).map (fun i =>
        let bytes := (data.drop (dataIndex + i * byteCount)).take byteCount
        StructFormatResult.int (signAdjust ch byteCount (formInteger en bytes byteCount)))
      structFormatUnpackGo data en rest 0 (dataIndex + count * byteCount) newOutput
    else if ch = 's' then
      structFormatUnpackGo data en rest 0 (dataIndex + rep)
        (output ++ [.bytes ((data.drop dataIndex).take rep)])
    else
      structFormatUnpackGo data en rest rep dataIndex output

def structFormatUnpack (format : List Char) (data : List Nat) (offset : Nat) :
    List StructFormatResult :=
  match format with
  | [] => []
  | c :: rest =>
    if c = '<' then structFormatUnpackGo data .LITTLE rest 0 offset []
    else if c = '>' ∨ c = '@' then structFormatUnpackGo data .BIG rest 0 offset []
    else structFormatUnpackGo data .BIG format 0 offset []

/-- **C5** (code bug): `structFormatUnpack` applies the two's-complement sign
extension to UPPER-case (per spec: unsigned) integer letters and returns the
raw unsigned value for lower-case (per spec: signed) letters: decoding the
byte `0x80` with format `<B` yields `-128` (the spec requires `128`) and with
format `<b` yields `128` (the spec requires `-128`). -/
theorem structFormatUnpack_sign_swapped :
    structFormatUnpack ['<', 'B'] [0x80] 0 = [.int (-128)] ∧
    structFormatUnpack ['<', 'b'] [0x80] 0 = [.int 128] := by decide

/-! ## Error kinds (`FatError` in `low-level.ts` / `ChainError` in
`chained-structures.ts`); a thrown JS error becomes `Except.error`. -/

inductive FatError
  | corruptFilesystem
  | infiniteAllocationLoop
  | rangeError
  | nonEmptyDirectory
  | notFound
  | invalidName
deriving DecidableEq, Repr

/-- `arraysEq` from `utils.ts`: length check then element-wise comparison. -/
def arraysEq (a b : List Nat) : Bool :=
  a.length == b.length && (List.range a.length).all (fun i => a.getD i 0 == b.getD i 0)

theorem arraysEq_iff (a b : List Nat) : arraysEq a b = true ↔ a = b := by
  constructor
  · intro h
    simp only [arraysEq, Bool.and_eq_true, beq_iff_eq, List.all_eq_true,
      List.mem_range] at h
    obtain ⟨hlen, hall⟩ := h
    apply List.ext_getElem hlen.symm.symm
    intro i h1 h2
    have := hall i h1
    rwa [List.getD_eq_getElem _ _ h1, List.getD_eq_getElem _ _ h2] at this
  · rintro rfl
    simp [arraysEq]

/-! ## Mount-time FAT coherency check (`LowLevelFatFilesystem.load`)

The fragment of `load` that reads FAT copy 0 and, unless
`bypassCoherencyCheck` is set, compares each additional copy byte-for-byte,
throwing a corrupt-filesystem error on the first mismatch.  `readSectors`
abstracts the block driver. -/

structure FatGeometry where
  reservedLogicalSectors : Nat
  logicalSectorsPerFat : Nat
  fatCount : Nat

def checkAlternativeFats (readSectors : Nat → Nat → List Nat) (g : FatGeometry)
    (rawFat : List Nat) : List Nat → Except FatError Unit
  | [] => .ok ()
  | alternativeFat :: rest =>
    if arraysEq (readSectors (g.reservedLogicalSectors +
        g.logicalSectorsPerFat * alternativeFat) g.logicalSectorsPerFat) rawFat then
      checkAlternativeFats readSectors g rawFat rest
    else
      .error .corruptFilesystem

def loadFatWithCoherencyCheck (readSectors : Nat → Nat → List Nat) (g : FatGeometry)
    (bypassCoherencyCheck : Bool) : Except FatError (List Nat) :=
  let rawFat := readSectors g.reservedLogicalSectors g.logicalSectorsPerFat
  if bypassCoherencyCheck then .ok rawFat
  else
    match checkAlternativeFats readSectors g rawFat (List.range' 1 (g.fatCount - 1)) with
    | .ok () => .ok rawFat
    | .error e => .error e

theorem checkAlternativeFats_ok_iff (readSectors : Nat → Nat → List Nat)
    (g : FatGeometry) (rawFat : List Nat) (l : List Nat) :
    checkAlternativeFats readSectors g rawFat l = .ok () ↔
      ∀ i ∈ l, readSectors (g.reservedLogicalSectors + g.logicalSectorsPerFat * i)
        g.logicalSectorsPerFat = rawFat := by
  induction l with
  | nil => simp [checkAlternativeFats]
  | cons x rest ih =>
    simp only [checkAlternativeFats, List.mem_cons]
    by_cases hx : arraysEq (readSectors (g.reservedLogicalSectors +
        g.logicalSectorsPerFat * x) g.logicalSectorsPerFat) rawFat = true
    · rw [if_pos hx, ih]
      have hx2 := (arraysEq_iff _ _).mp hx
      constructor
      · intro h i hi
        rcases hi with rfl | hi
        · exact hx2
        · exact h i hi
      · intro h i hi
        exact h i (Or.inr hi)
    · rw [if_neg hx]
      constructor
      · intro h
        exact absurd h (by simp)
      · intro h
        exact absurd ((arraysEq_iff _ _).mpr (h x (Or.inl rfl))) hx

/-- **C2**: on a volume with at least two FAT copies, mounting with
`bypassCoherencyCheck = false` raises the corrupt-FAT error if and only if some
additional FAT copy is not byte-for-byte identical to FAT copy 0, and otherwise
succeeds with FAT copy 0; with `bypassCoherencyCheck = true` the comparison is
skipped and the mount fragment always succeeds using FAT copy 0. -/
theorem mount_fat_coherency (readSectors : Nat → Nat → List Nat) (g : FatGeometry)
    (hfc : 2 ≤ g.fatCount) :
    ((∃ e, loadFatWithCoherencyCheck readSectors g false = .error e) ↔
      ∃ i, 1 ≤ i ∧ i < g.fatCount ∧
        readSectors (g.reservedLogicalSectors + g.logicalSectorsPerFat * i)
          g.logicalSectorsPerFat ≠
        readSectors g.reservedLogicalSectors g.logicalSectorsPerFat) ∧
    ((¬ ∃ i, 1 ≤ i ∧ i < g.fatCount ∧
        readSectors (g.reservedLogicalSectors + g.logicalSectorsPerFat * i)
          g.logicalSectorsPerFat ≠
        readSectors g.reservedLogicalSectors g.logicalSectorsPerFat) →
      loadFatWithCoherencyCheck readSectors g false =
        .ok (readSectors g.reservedLogicalSectors g.logicalSectorsPerFat)) ∧
    loadFatWithCoherencyCheck readSectors g true =
      .ok (readSectors g.reservedLogicalSectors g.logicalSectorsPerFat) := by
  have hmem : ∀ i : Nat, i ∈ List.range' 1 (g.fatCount - 1) ↔ 1 ≤ i ∧ i < g.fatCount := by
    intro i
    rw [List.mem_range'_1]
    omega
  refine ⟨?_, ?_, by simp [loadFatWithCoherencyCheck]⟩
  · simp only [loadFatWithCoherencyCheck, if_neg (Bool.false_ne_true)]
    rcases hck : checkAlternativeFats readSectors g
        (readSectors g.reservedLogicalSectors g.logicalSectorsPerFat)
        (List.range' 1 (g.fatCount - 1)) with e | u
    · simp only [hck]
      constructor
      · intro _
        by_contra hno
        push_neg at hno
        have : checkAlternativeFats readSectors g
            (readSectors g.reservedLogicalSectors g.logicalSectorsPerFat)
            (List.range' 1 (g.fatCount - 1)) = .ok () := by
          rw [checkAlternativeFats_ok_iff]
          intro i hi
          rcases (hmem i).mp hi with ⟨h1, h2⟩
          by_contra hne
          exact hne (by
            by_contra hne2
            exact hne2 (by
              have := hno i h1 h2
              exact this))
        rw [this] at hck
        exact Except.noConfusion hck
      · intro _
        exact ⟨e, rfl⟩
    · cases u
      simp only [hck]
      constructor
      · intro ⟨e, he⟩
        exact Except.noConfusion he
      · intro ⟨i, h1, h2, hne⟩
        exfalso
        rw [checkAlternativeFats_ok_iff] at hck
        exact hne (hck i ((hmem i).mpr ⟨h1, h2⟩))
  · intro hno
    push_neg at hno
    simp only [loadFatWithCoherencyCheck, if_neg (Bool.false_ne_true)]
    have : checkAlternativeFats readSectors g
        (readSectors g.reservedLogicalSectors g.logicalSectorsPerFat)
        (List.range' 1 (g.fatCount - 1)) = .ok () := by
      rw [checkAlternativeFats_ok_iff]
      intro i hi
      rcases (hmem i).mp hi with ⟨h1, h2⟩
      exact hno i h1 h2
    rw [this]

/-- Witness for **C2**: a two-copy volume (one sector per FAT) whose copies
differ, plus the bypass path on the same volume. -/
theorem mount_fat_coherency_witness :
    (∃ e, loadFatWithCoherencyCheck (fun start _ => if start = 1 then [0xAA] else [0xAB])
        ⟨1, 1, 2⟩ false = .error e) ∧
    loadFatWithCoherencyCheck (fun start _ => if start = 1 then [0xAA] else [0xAB])
        ⟨1, 1, 2⟩ true = .ok [0xAA] := by
  constructor
  · exact (mount_fat_coherency _ ⟨1, 1, 2⟩ (by norm_num)).1.mpr
      ⟨1, by norm_num, by norm_num, by decide⟩
  · exact (mount_fat_coherency _ ⟨1, 1, 2⟩ (by norm_num)).2.2

/-! ## `cluster-allocator.ts`: `ClusterAllocator`

The FAT is modelled at logical entry granularity (`fat : List Nat`, one value
per cluster index), which is what the spec's `FAT[c]` denotes; the byte-level
packing behind `readFATClusterEntry`/`writeFATClusterEntry` is verified
separately above (`fat12_packing` for the straddling FAT12 case).
`endOfChain` is the low-level driver's end-of-chain sentinel, a nonzero value
in all three FAT variants (`0xFFF8..`, `0xFFF8..F`, `0x0FFFFFF8..`). -/

def readFATClusterEntryL (fat : List Nat) (number : Nat) : Nat := fat.getD number 0

def writeFATClusterEntryL (fat : List Nat) (number next : Nat) : List Nat :=
  fat.set number next

structure FreeClusterChain where
  startCluster : Nat
  length : Nat
deriving DecidableEq, Repr

structure ClusterAllocator where
  freelist : List FreeClusterChain
  freemap : List Bool
  fat : List Nat
deriving DecidableEq, Repr

/-- `ClusterAllocator.init`: clusters 0 and 1 are always taken; the rest of the
freemap mirrors `readFATClusterEntry(i) == 0`.  The source's two entry counts
(`fatEntriesCount` and `fatContents.byteLength / entrySize`) coincide, both
being `logicalSectorsPerFat * sectorSize / entrySize` = `fat.length` here. -/
def ClusterAllocator.initFreemap (fat : List Nat) : List Bool :=
  (List.range fat.length).map (fun i =>
    if i < 2 then false else readFATClusterEntryL fat i == 0)

theorem length_dropWhile_le_self {a : Type} (p : a → Bool) (l : List a) :
    (l.dropWhile p).length ≤ l.length := by
  induction l with
  | nil => simp
  | cons x rest ih =>
    by_cases h : p x
    · simp only [List.dropWhile_cons, h, if_true, List.length_cons]
      omega
    · simp [List.dropWhile_cons, h]

def convertFreemapToFreelistGo : List Bool → Nat → List FreeClusterChain
  | [], _ => []
  | false :: rest, idx => convertFreemapToFreelistGo rest (idx + 1)
  | true :: rest, idx =>
    let len := (rest.takeWhile (fun b => b)).length + 1
    ⟨idx, len⟩ :: convertFreemapToFreelistGo (rest.dropWhile (fun b => b)) (idx + len)
termination_by l _ => l.length
decreasing_by
  · simp
  · simp only [List.length_cons]
    exact Nat.lt_succ_of_le (length_dropWhile_le_self _ _)

/-- `convertFreemapToFreelist`: the freelist is the list of maximal runs of
`true` in the freemap (the source scans with `indexOf(true, ·)` and a
consecutive-`true` counter, which produces exactly these runs). -/
def convertFreemapToFreelist (freemap : List Bool) : List FreeClusterChain :=
  convertFreemapToFreelistGo freemap 0

def ClusterAllocator.addClusterListToFreelist (a : ClusterAllocator) (list : List Nat) :
    ClusterAllocator :=
  let freemap := list.foldl (fun fm e => fm.set e true) a.freemap
  { a with freemap := freemap, freelist := convertFreemapToFreelist freemap }

/-- `addChainToFreelist` marks each link's cluster index free; `chainLinks` is
`chain.links.map(e => e.index)`. -/
def ClusterAllocator.addChainToFreelist (a : ClusterAllocator) (chainLinks : List Nat) :
    ClusterAllocator :=
  let freemap := chainLinks.foldl (fun fm e => fm.set e true) a.freemap
  { a with freemap := freemap, freelist := convertFreemapToFreelist freemap }

/-- JS `Math.abs(a - b)` for the sort comparator. -/
def absDiff (a b : Nat) : Nat := max a b - min a b

/-- `findClosest` sorts by distance to `lastLink.index` and the caller takes
element `[0]`; with a stable sort and this consistent comparator that head is
the first element at minimal distance, which this fold computes directly. -/
def findClosestHead (lastLink : Option Nat) (list : List FreeClusterChain) :
    Option FreeClusterChain :=
  match lastLink with
  | none => list.head?
  | some last =>
    list.foldl (fun acc e =>
      match acc with
      | none => some e
      | some b =>
        if absDiff e.startCluster last < absDiff b.startCluster last then some e
        else some b)
      none

def replaceFirst : List FreeClusterChain → FreeClusterChain → FreeClusterChain →
    List FreeClusterChain
  | [], _, _ => []
  | x :: rest, old, new => if x = old then new :: rest else x :: replaceFirst rest old new

/-- `ClusterAllocator.allocate`.  A JS crash (TypeError) is modelled as `none`:
`if(!this.freelist)` never fires (an array is always truthy), and likewise
`if (allFitting)` is always true, so when no run is long enough
`allFitting[0]` is `undefined` and `chainToModify.length -= sizeAsClusters`
throws.  An empty carve (`sizeAsClusters = 0`) crashes on
`links[links.length - 1].index`. -/
def ClusterAllocator.allocate (a : ClusterAllocator)
    (clusterSizeInBytes endOfChain : Nat) (lastLink : Option Nat) (size : Nat) :
    Option (List Nat × ClusterAllocator) :=
  let sizeAsClusters := (size + clusterSizeInBytes - 1) / clusterSizeInBytes
  let allFitting := a.freelist.filter (fun e => sizeAsClusters ≤ e.length)
  match findClosestHead lastLink allFitting with
  | none => none
  | some chainToModify =>
    let startIndex := chainToModify.startCluster
    let newRun : FreeClusterChain :=
      ⟨chainToModify.startCluster + sizeAsClusters, chainToModify.length - sizeAsClusters⟩
    let freelist :=
      if newRun.length = 0 then a.freelist.erase chainToModify
      else replaceFirst a.freelist chainToModify newRun
    let links := List.range' startIndex sizeAsClusters
    let freemap := links.foldl (fun fm i => fm.set i false) a.freemap
    match links.getLast? with
    | none => none
    | some lastCluster =>
      let fat1 := (links.zip links.tail).foldl
        (fun f p => writeFATClusterEntryL f p.1 p.2) a.fat
      let fat2 := writeFATClusterEntryL fat1 lastCluster endOfChain
      let fat3 := match lastLink with
        | some l => writeFATClusterEntryL fat2 l startIndex
        | none => fat2
      some (links, { freelist := freelist, freemap := freemap, fat := fat3 })

/-- **C1** (code bug): in a state whose freelist is non-empty but contains no
run of the required length, `allocate` crashes (TypeError, modelled `none`)
instead of carving from the nearest any-length run: `if (allFitting)` tests an
array, which is always truthy in JS, so the any-length fallback branch is dead
code and `allFitting[0]` is `undefined`.  Here the freelist holds one run of
length 1 while 1024 bytes (2 clusters of 512 bytes) are requested. -/
theorem allocate_no_fallback :
    ClusterAllocator.allocate ⟨[⟨2, 1⟩], [false, false, true], [0, 0, 0]⟩
        512 0xFFF8 none 1024 = none ∧
    (ClusterAllocator.mk [⟨2, 1⟩] [false, false, true] [0, 0, 0]).freelist ≠ [] := by
  decide

/-! ### Helper lemmas for the allocator invariant -/

theorem getD_set_self_g {a : Type} (l : List a) (i : Nat) (x d : a) (h : i < l.length) :
    (l.set i x).getD i d = x := by
  simp [List.getD_eq_getElem?_getD, List.getElem?_set_self', h]

theorem getD_set_ne_g {a : Type} (l : List a) {i j : Nat} (x d : a) (h : i ≠ j) :
    (l.set i x).getD j d = l.getD j d := by
  simp [List.getD_eq_getElem?_getD, List.getElem?_set_ne h]

theorem foldl_set_length {a : Type} (xs : List Nat) (v : a) (l : List a) :
    (xs.foldl (fun acc i => acc.set i v) l).length = l.length := by
  induction xs generalizing l with
  | nil => rfl
  | cons x rest ih => simp only [List.foldl_cons]; rw [ih, List.length_set]

theorem foldl_set_getD {a : Type} (xs : List Nat) (v d : a) (l : List a) (c : Nat) :
    (xs.foldl (fun acc i => acc.set i v) l).getD c d =
      if c ∈ xs ∧ c < l.length then v else l.getD c d := by
  induction xs generalizing l with
  | nil => simp
  | cons x rest ih =>
    simp only [List.foldl_cons]
    rw [ih, List.length_set]
    by_cases hx : c = x
    · subst hx
      by_cases hlt : c < l.length
      · by_cases hr : c ∈ rest
        · simp [hr, hlt]
        · rw [if_neg (by simp [hr]), if_pos ⟨List.mem_cons_self _ _, hlt⟩]
          exact getD_set_self_g _ _ _ _ hlt
      · have hnoop : l.set c v = l := List.set_eq_of_length_le (by omega)
        rw [hnoop]
        simp [hlt]
    · rw [getD_set_ne_g _ _ _ (fun h => hx h.symm)]
      simp [List.mem_cons, hx]

theorem foldl_write_length (ps : List (Nat × Nat)) (f : List Nat) :
    (ps.foldl (fun f p => writeFATClusterEntryL f p.1 p.2) f).length = f.length := by
  induction ps generalizing f with
  | nil => rfl
  | cons p rest ih =>
    simp only [List.foldl_cons]
    rw [ih]
    simp [writeFATClusterEntryL]

theorem foldl_write_not_mem (ps : List (Nat × Nat)) (f : List Nat) (c : Nat)
    (hc : ∀ p ∈ ps, p.1 ≠ c) :
    (ps.foldl (fun f p => writeFATClusterEntryL f p.1 p.2) f).getD c 0 = f.getD c 0 := by
  induction ps generalizing f with
  | nil => rfl
  | cons p rest ih =>
    simp only [List.foldl_cons]
    rw [ih _ (fun q hq => hc q (List.mem_cons_of_mem _ hq))]
    exact getD_set_ne_g _ _ _ (hc p (List.mem_cons_self _ _))

theorem foldl_write_nonzero (ps : List (Nat × Nat)) (f : List Nat) (c : Nat)
    (hmem : c ∈ ps.map Prod.fst) (hvals : ∀ p ∈ ps, p.2 ≠ 0) (hlt : c < f.length) :
    (ps.foldl (fun f p => writeFATClusterEntryL f p.1 p.2) f).getD c 0 ≠ 0 := by
  induction ps generalizing f with
  | nil => simp at hmem
  | cons p rest ih =>
    simp only [List.foldl_cons]
    by_cases hr : c ∈ rest.map Prod.fst
    · exact ih _ hr (fun q hq => hvals q (List.mem_cons_of_mem _ hq))
        (by simp only [writeFATClusterEntryL, List.length_set]; exact hlt)
    · have hcp : c = p.1 := by
        rcases (List.mem_map.mp hmem) with ⟨q, hq, hqc⟩
        rcases List.mem_cons.mp hq with rfl | hq2
        · exact hqc.symm
        · exact absurd (List.mem_map.mpr ⟨q, hq2, hqc⟩) hr
      rw [foldl_write_not_mem _ _ _ (fun q hq hq1 => hr (List.mem_map.mpr ⟨q, hq, hq1⟩))]
      subst hcp
      rw [writeFATClusterEntryL, getD_set_self_g _ _ _ _ hlt]
      exact hvals p (List.mem_cons_self _ _)

theorem findClosestHead_mem_aux (last : Nat) (list : List FreeClusterChain)
    (acc : Option FreeClusterChain) (r : FreeClusterChain)
    (h : list.foldl (fun acc e =>
      match acc with
      | none => some e
      | some b =>
        if absDiff e.startCluster last < absDiff b.startCluster last then some e
        else some b) acc = some r) :
    r ∈ list ∨ acc = some r := by
  induction list generalizing acc with
  | nil => exact Or.inr h
  | cons x rest ih =>
    simp only [List.foldl_cons] at h
    rcases ih _ h with hmem | hstep
    · exact Or.inl (List.mem_cons_of_mem _ hmem)
    · rcases acc with _ | b
      · simp only [Option.some.injEq] at hstep
        exact Or.inl (hstep ▸ List.mem_cons_self _ _)
      · have hstep2 : (if absDiff x.startCluster last < absDiff b.startCluster last
            then some x else some b) = some r := hstep
        by_cases hcmp : absDiff x.startCluster last < absDiff b.startCluster last
        · rw [if_pos hcmp] at hstep2
          simp only [Option.some.injEq] at hstep2
          exact Or.inl (hstep2 ▸ List.mem_cons_self _ _)
        · rw [if_neg hcmp] at hstep2
          exact Or.inr hstep2

theorem findClosestHead_mem (lastLink : Option Nat) (list : List FreeClusterChain)
    (r : FreeClusterChain) (h : findClosestHead lastLink list = some r) : r ∈ list := by
  rcases lastLink with _ | last
  · cases list with
    | nil => simp [findClosestHead] at h
    | cons x rest =>
      simp only [findClosestHead, List.head?] at h
      cases h
      exact List.mem_cons_self _ _
  · rcases findClosestHead_mem_aux last list none r h with hmem | habs
    · exact hmem
    · exact Option.noConfusion habs

theorem zip_range'_succ : ∀ (m s : Nat),
    List.zip (List.range' s (m + 1)) (List.range' (s + 1) m) =
      (List.range' s m).map (fun i => (i, i + 1)) := by
  intro m
  induction m with
  | zero => intro s; rfl
  | succ k ih =>
    intro s
    rw [List.range'_succ s (k + 1) 1, List.range'_succ (s + 1) k 1, List.zip_cons_cons,
      ← List.range'_succ (s + 1) k 1, ih (s + 1), List.range'_succ s k 1]
    simp

theorem getLast?_range' (s n : Nat) : (List.range' s (n + 1)).getLast? = some (s + n) := by
  rw [List.range'_1_concat, List.getLast?_concat]

theorem writeFATClusterEntryL_length (f : List Nat) (n v : Nat) :
    (writeFATClusterEntryL f n v).length = f.length := by
  simp [writeFATClusterEntryL]

theorem writeFATClusterEntryL_getD_self (f : List Nat) (n v : Nat) (h : n < f.length) :
    (writeFATClusterEntryL f n v).getD n 0 = v :=
  getD_set_self_g f n v 0 h

theorem writeFATClusterEntryL_getD_ne (f : List Nat) {n c : Nat} (v : Nat) (h : n ≠ c) :
    (writeFATClusterEntryL f n v).getD c 0 = f.getD c 0 :=
  getD_set_ne_g f v 0 h

/-- Spec invariant 3: `freemap[c] = true ⇔ FAT[c] = 0` for every valid cluster
index `c ≥ 2`.  -/
def allocInvariant (freemap : List Bool) (fat : List Nat) : Prop :=
  ∀ c, c < fat.length → 2 ≤ c → (freemap.getD c false = true ↔ fat.getD c 0 = 0)

instance allocInvariantDecidable (freemap : List Bool) (fat : List Nat) :
    Decidable (allocInvariant freemap fat) := by
  unfold allocInvariant
  infer_instance

/-- **C3** (counterexample): `addClusterListToFreelist` marks the given
clusters free in the freemap but never zeroes their FAT entries, so the
invariant `freemap[c] = true ⇔ FAT[c] = 0` does not hold after every allocator
operation.  Here cluster 2 holds the EOC value `0xFFF8`; the invariant holds
before, and fails at `c = 2` right after `addClusterListToFreelist [2]`. -/
theorem allocator_freemap_consistency_cex :
    allocInvariant [false, false, false] [0, 0, 0xFFF8] ∧
    (ClusterAllocator.addClusterListToFreelist
      ⟨[], [false, false, false], [0, 0, 0xFFF8]⟩ [2]).fat = [0, 0, 0xFFF8] ∧
    ¬ allocInvariant
        (ClusterAllocator.addClusterListToFreelist
          ⟨[], [false, false, false], [0, 0, 0xFFF8]⟩ [2]).freemap
        (ClusterAllocator.addClusterListToFreelist
          ⟨[], [false, false, false], [0, 0, 0xFFF8]⟩ [2]).fat := by
  decide

/-- **C3** (amended): the invariant `freemap[c] = true ⇔ FAT[c] = 0` (for valid
`c ≥ 2`) is established by `init` and preserved by a successful `allocate`
(given a well-formed freelist, a nonzero EOC sentinel and an allocated
`lastLink`); `addClusterListToFreelist` and `addChainToFreelist` never modify
the FAT, so they preserve the invariant exactly when every supplied cluster's
FAT entry is already `0` (the counterexample above shows the unrestricted
claim fails). -/
theorem allocator_freemap_consistency :
    (∀ fat : List Nat, allocInvariant (ClusterAllocator.initFreemap fat) fat) ∧
    (∀ (a : ClusterAllocator) (cs eoc : Nat) (lastLink : Option Nat) (size : Nat)
        (links : List Nat) (a' : ClusterAllocator),
      allocInvariant a.freemap a.fat →
      a.freemap.length = a.fat.length →
      (∀ r ∈ a.freelist, 2 ≤ r.startCluster ∧ r.startCluster + r.length ≤ a.fat.length) →
      eoc ≠ 0 →
      (∀ l, lastLink = some l → a.freemap.getD l false = false) →
      a.allocate cs eoc lastLink size = some (links, a') →
      allocInvariant a'.freemap a'.fat) ∧
    (∀ (a : ClusterAllocator) (list : List Nat),
      allocInvariant a.freemap a.fat →
      (∀ c ∈ list, a.fat.getD c 0 = 0) →
      allocInvariant (a.addClusterListToFreelist list).freemap
        (a.addClusterListToFreelist list).fat) ∧
    (∀ (a : ClusterAllocator) (chainLinks : List Nat),
      allocInvariant a.freemap a.fat →
      (∀ c ∈ chainLinks, a.fat.getD c 0 = 0) →
      allocInvariant (a.addChainToFreelist chainLinks).freemap
        (a.addChainToFreelist chainLinks).fat) := by
  refine ⟨?_, ?_, ?_, ?_⟩
  · -- init establishes the invariant
    intro fat c hc h2
    unfold ClusterAllocator.initFreemap
    rw [List.getD_eq_getElem _ _ (by simpa using hc)]
    simp only [List.getElem_map, List.getElem_range]
    rw [if_neg (by omega)]
    simp [readFATClusterEntryL]
  · -- allocate preserves the invariant
    intro a cs eoc lastLink size links a' hinv hlen hruns heoc hlast halloc
    simp only [ClusterAllocator.allocate] at halloc
    split at halloc
    · exact absurd halloc (by simp)
    · rename_i run hfc
      have hrunmem : run ∈ a.freelist :=
        (List.mem_filter.mp (findClosestHead_mem _ _ _ hfc)).1
      have hrunfit : (size + cs - 1) / cs ≤ run.length := by
        have h2 := (List.mem_filter.mp (findClosestHead_mem _ _ _ hfc)).2
        simpa using h2
      obtain ⟨hstart2, hbound⟩ := hruns run hrunmem
      split at halloc
      · exact absurd halloc (by simp)
      · rename_i lastC hlast2
        have hn1 : (size + cs - 1) / cs ≠ 0 := by
          intro h0
          rw [h0] at hlast2
          simp [List.range'] at hlast2
        obtain ⟨m, hm⟩ : ∃ m, (size + cs - 1) / cs = m + 1 :=
          ⟨(size + cs - 1) / cs - 1,
            (Nat.sub_add_cancel (Nat.one_le_iff_ne_zero.mpr hn1)).symm⟩
        rw [hm] at hlast2 hrunfit halloc
        rw [getLast?_range'] at hlast2
        have hlastC : lastC = run.startCluster + m := by
          cases hlast2
          rfl
        simp only [Option.some.injEq, Prod.mk.injEq] at halloc
        obtain ⟨hlinks, ha'⟩ := halloc
        subst ha'
        have hpairs : (List.range' run.startCluster (m + 1)).zip
            (List.range' run.startCluster (m + 1)).tail =
            (List.range' run.startCluster m).map (fun i => (i, i + 1)) := by
          rw [List.range'_succ]
          simp only [List.tail_cons]
          rw [← List.range'_succ]
          exact zip_range'_succ m run.startCluster
        have hpairsfst : ((List.range' run.startCluster (m + 1)).zip
            (List.range' run.startCluster (m + 1)).tail).map Prod.fst =
            List.range' run.startCluster m := by
          rw [hpairs, List.map_map]
          have hid : (Prod.fst ∘ fun i : Nat => (i, i + 1)) = id := rfl
          rw [hid, List.map_id]
        have hpairsvals : ∀ p ∈ (List.range' run.startCluster (m + 1)).zip
            (List.range' run.startCluster (m + 1)).tail, p.2 ≠ 0 := by
          rw [hpairs]
          intro p hp
          rcases List.mem_map.mp hp with ⟨i, _, rfl⟩
          simp
        have hfat1len :
            (((List.range' run.startCluster (m + 1)).zip
              (List.range' run.startCluster (m + 1)).tail).foldl
              (fun f p => writeFATClusterEntryL f p.1 p.2) a.fat).length
              = a.fat.length := foldl_write_length _ _
        have hfat2mem : ∀ c, c < a.fat.length →
            c ∈ List.range' run.startCluster (m + 1) →
            (writeFATClusterEntryL
              (((List.range' run.startCluster (m + 1)).zip
                (List.range' run.startCluster (m + 1)).tail).foldl
                (fun f p => writeFATClusterEntryL f p.1 p.2) a.fat) lastC eoc).getD
              c 0 ≠ 0 := by
          intro c hclen hcl
          by_cases hceq : c = lastC
          · subst hceq
            rw [writeFATClusterEntryL_getD_self _ _ _ (by rw [hfat1len]; exact hclen)]
            exact heoc
          · rw [writeFATClusterEntryL_getD_ne _ _ (fun h => hceq h.symm)]
            apply foldl_write_nonzero
            · rw [hpairsfst, List.mem_range'_1]
              rw [List.mem_range'_1] at hcl
              rw [hlastC] at hceq
              omega
            · exact hpairsvals
            · exact hclen
        have hfat2out : ∀ c, c ∉ List.range' run.startCluster (m + 1) →
            (writeFATClusterEntryL
              (((List.range' run.startCluster (m + 1)).zip
                (List.range' run.startCluster (m + 1)).tail).foldl
                (fun f p => writeFATClusterEntryL f p.1 p.2) a.fat) lastC eoc).getD
              c 0 = a.fat.getD c 0 := by
          intro c hcl
          have hcnelast : c ≠ lastC := by
            intro h
            apply hcl
            rw [h, hlastC, List.mem_range'_1]
            omega
          rw [writeFATClusterEntryL_getD_ne _ _ (fun h => hcnelast h.symm)]
          apply foldl_write_not_mem
          intro p hp hpc
          apply hcl
          have hped : p.1 ∈ ((List.range' run.startCluster (m + 1)).zip
              (List.range' run.startCluster (m + 1)).tail).map Prod.fst :=
            List.mem_map.mpr ⟨p, hp, rfl⟩
          rw [hpairsfst, List.mem_range'_1] at hped
          rw [hpc] at hped
          rw [List.mem_range'_1]
          omega
        have hfmval : ∀ c, (List.foldl (fun fm i => fm.set i false) a.freemap
            (List.range' run.startCluster (m + 1))).getD c false =
            if c ∈ List.range' run.startCluster (m + 1) ∧ c < a.freemap.length
            then false else a.freemap.getD c false :=
          fun c => foldl_set_getD _ _ _ _ _
        rcases lastLink with _ | l
        · show allocInvariant
            (List.foldl (fun fm i => fm.set i false) a.freemap
              (List.range' run.startCluster (m + 1)))
            (writeFATClusterEntryL
              (((List.range' run.startCluster (m + 1)).zip
                (List.range' run.startCluster (m + 1)).tail).foldl
                (fun f p => writeFATClusterEntryL f p.1 p.2) a.fat) lastC eoc)
          intro c hc h2c
          rw [writeFATClusterEntryL_length, hfat1len] at hc
          rw [hfmval]
          by_cases hcl : c ∈ List.range' run.startCluster (m + 1)
          · have hcr := List.mem_range'_1.mp hcl
            rw [if_pos ⟨hcl, by omega⟩]
            simp only [Bool.false_eq_true, false_iff]
            exact hfat2mem c hc hcl
          · rw [if_neg (by simp [hcl])]
            rw [hfat2out c hcl]
            exact hinv c hc h2c
        · show allocInvariant
            (List.foldl (fun fm i => fm.set i false) a.freemap
              (List.range' run.startCluster (m + 1)))
            (writeFATClusterEntryL
              (writeFATClusterEntryL
                (((List.range' run.startCluster (m + 1)).zip
                  (List.range' run.startCluster (m + 1)).tail).foldl
                  (fun f p => writeFATClusterEntryL f p.1 p.2) a.fat) lastC eoc)
              l run.startCluster)
          intro c hc h2c
          rw [writeFATClusterEntryL_length, writeFATClusterEntryL_length, hfat1len] at hc
          rw [hfmval]
          by_cases hcll : c = l
          · subst hcll
            have hfm : a.freemap.getD c false = false := hlast c rfl
            have hval : (writeFATClusterEntryL
                (writeFATClusterEntryL
                  (((List.range' run.startCluster (m + 1)).zip
                    (List.range' run.startCluster (m + 1)).tail).foldl
                    (fun f p => writeFATClusterEntryL f p.1 p.2) a.fat) lastC eoc)
                c run.startCluster).getD c 0 = run.startCluster :=
              writeFATClusterEntryL_getD_self _ _ _
                (by rw [writeFATClusterEntryL_length, hfat1len]; exact hc)
            rw [hval]
            by_cases hcl : c ∈ List.range' run.startCluster (m + 1)
            · rw [if_pos ⟨hcl, by have := List.mem_range'_1.mp hcl; omega⟩]
              simp only [Bool.false_eq_true, false_iff]
              omega
            · rw [if_neg (by simp [hcl]), hfm]
              simp only [Bool.false_eq_true, false_iff]
              omega
          · rw [writeFATClusterEntryL_getD_ne _ _ (fun h => hcll h.symm)]
            by_cases hcl : c ∈ List.range' run.startCluster (m + 1)
            · have hcr := List.mem_range'_1.mp hcl
              rw [if_pos ⟨hcl, by omega⟩]
              simp only [Bool.false_eq_true, false_iff]
              exact hfat2mem c hc hcl
            · rw [if_neg (by simp [hcl]), hfat2out c hcl]
              exact hinv c hc h2c
  · -- addClusterListToFreelist with already-zero FAT entries
    intro a list hinv hzero
    intro c hc h2c
    simp only [ClusterAllocator.addClusterListToFreelist] at hc ⊢
    rw [foldl_set_getD]
    by_cases hcl : c ∈ list ∧ c < a.freemap.length
    · rw [if_pos hcl]
      simp only [true_iff]
      exact hzero c hcl.1
    · rw [if_neg hcl]
      exact hinv c hc h2c
  · -- addChainToFreelist with already-zero FAT entries
    intro a chainLinks hinv hzero
    intro c hc h2c
    simp only [ClusterAllocator.addChainToFreelist] at hc ⊢
    rw [foldl_set_getD]
    by_cases hcl : c ∈ chainLinks ∧ c < a.freemap.length
    · rw [if_pos hcl]
      simp only [true_iff]
      exact hzero c hcl.1
    · rw [if_neg hcl]
      exact hinv c hc h2c

/-- Witness for **C3**: a concrete successful allocation (one cluster carved
from the run starting at cluster 2) whose result satisfies the invariant, and
concrete instances of the other three conjuncts. -/
theorem allocator_freemap_consistency_witness :
    allocInvariant (ClusterAllocator.initFreemap [63489, 65535, 0, 0, 7])
      [63489, 65535, 0, 0, 7] ∧
    ClusterAllocator.allocate
      ⟨[⟨2, 2⟩], [false, false, true, true, false], [1, 1, 0, 0, 7]⟩
      512 0xFFF8 none 512 =
      some ([2], ⟨[⟨3, 1⟩], [false, false, false, true, false],
        [1, 1, 0xFFF8, 0, 7]⟩) ∧
    allocInvariant [false, false, false, true, false] [1, 1, 0xFFF8, 0, 7] ∧
    allocInvariant
      (ClusterAllocator.addClusterListToFreelist
        ⟨[], [false, false, true, true, false], [1, 1, 0, 0, 7]⟩ [2]).freemap
      (ClusterAllocator.addClusterListToFreelist
        ⟨[], [false, false, true, true, false], [1, 1, 0, 0, 7]⟩ [2]).fat := by
  refine ⟨allocator_freemap_consistency.1 _, by decide, ?_, ?_⟩
  · have h := allocator_freemap_consistency.2.1
      ⟨[⟨2, 2⟩], [false, false, true, true, false], [1, 1, 0, 0, 7]⟩
      512 0xFFF8 none 512 [2]
      ⟨[⟨3, 1⟩], [false, false, false, true, false], [1, 1, 0xFFF8, 0, 7]⟩
      (by decide) (by decide) (by decide) (by decide)
      (fun l hl => Option.noConfusion hl) (by decide)
    exact h
  · exact allocator_freemap_consistency.2.2.1
      ⟨[], [false, false, true, true, false], [1, 1, 0, 0, 7]⟩ [2]
      (by decide) (by decide)

/-! ## `chained-structures.ts`: `Chain`

A link is its declared byte `length` together with the bytes its `read()`
returns (a cluster link reads a whole cluster).  The state carries the fields
the class mutates on the read path: `_links`, `_cursor`, the derived
`currentLink`/`linkSubCursor`/`linkIndex` maintained by the cursor setter, and
`totalLength`.  The write path and its pending buffer are not modelled; no
claim concerns them.  `new Uint8Array(count)` with a negative `count` throws a
`RangeError`, modelled as `none`. -/

structure ChainLinkM where
  length : Nat
  data : List Nat
deriving DecidableEq, Repr

structure ChainState where
  links : List ChainLinkM
  cursor : Nat
  currentLink : Option ChainLinkM
  linkSubCursor : Option Nat
  linkIndex : Nat
  totalLength : Nat
deriving DecidableEq, Repr

/-- The loop of the `cursor` setter: find the first link whose span contains
byte `n`, returning it with the sub-cursor and link index. -/
def setCursorGo (n : Nat) : List ChainLinkM → Nat → Nat →
    Option (ChainLinkM × Nat × Nat)
  | [], _, _ => none
  | link :: rest, currentLength, idx =>
    if n < currentLength + link.length then some (link, n - currentLength, idx)
    else setCursorGo n rest (currentLength + link.length) (idx + 1)

def Chain.setCursor (st : ChainState) (n : Nat) : ChainState :=
  match setCursorGo n st.links 0 0 with
  | some (link, sub, idx) =>
    { st with
      cursor := n
      currentLink := some link
      linkSubCursor := some sub
      linkIndex := idx }
  | none => { st with cursor := n, currentLink := none, linkSubCursor := none }

/-- `length()`: the sum of the link lengths. -/
def Chain.chainLength (st : ChainState) : Nat :=
  st.links.foldl (fun a b => a + b.length) 0

/-- The constructor: cursor 0, `totalLength = readLimitSize ?? this.length()`. -/
def Chain.mkState (links : List ChainLinkM) (readLimitSize : Option Nat) : ChainState :=
  Chain.setCursor
    { links := links
      cursor := 0
      currentLink := none
      linkSubCursor := none
      linkIndex := 0
      totalLength := readLimitSize.getD
        (links.foldl (fun a b => a + b.length) 0) } 0

inductive SeekWhence
  | start
  | cur
  | fromEnd
deriving DecidableEq, Repr

/-- `seek` (the pending-write flush is a no-op on the read path). -/
def Chain.seek (st : ChainState) (pos : Nat) (whence : SeekWhence) : ChainState :=
  match whence with
  | .start => Chain.setCursor st pos
  | .cur => Chain.setCursor st (st.cursor + pos)
  | .fromEnd => Chain.setCursor st (Chain.chainLength st - pos)

/-- The `while(currentLength < count)` loop of `Chain.read`.  The fuel
argument bounds the iterations; `count + 1` iterations are enough whenever
every link's data has its declared length (each pass then consumes at least
one byte or exits, exactly like the JS loop). -/
def Chain.readGo : Nat → ChainState → Nat → Nat → List Nat → List Nat × ChainState
  | 0, st, _, _, ret => (ret, st)
  | fuel + 1, st, count, currentLength, ret =>
    if currentLength < count then
      match st.currentLink, st.linkSubCursor with
      | some link, some sub =>
        let limited := (link.data.drop sub).take (count - currentLength)
        let sub2 := sub + limited.length
        let st2 := { st with cursor := st.cursor + limited.length }
        let st3 :=
          if link.length ≤ sub2 then
            { st2 with
              linkIndex := st2.linkIndex + 1
              linkSubCursor := some (sub2 - link.length)
              currentLink := st2.links.get? (st2.linkIndex + 1) }
          else { st2 with linkSubCursor := some sub2 }
        Chain.readGo fuel st3 count (currentLength + limited.length) (ret ++ limited)
      | _, _ => (ret, st)
    else (ret, st)

/-- `Chain.read(count)`: `count = Math.min(totalLength, count + cursor) - cursor`
is negative exactly when the cursor sits past `totalLength`, in which case
`new Uint8Array(count)` throws a `RangeError` (`none`). -/
def Chain.read (st : ChainState) (count0 : Nat) : Option (List Nat × ChainState) :=
  if st.totalLength < st.cursor then none
  else
    let count := min st.totalLength (count0 + st.cursor) - st.cursor
    some (Chain.readGo (count + 1) st count 0 [])

theorem readGo_length_le (fuel : Nat) : ∀ (st : ChainState) (count cl : Nat)
    (ret : List Nat), (Chain.readGo fuel st count cl ret).1.length ≤
      ret.length + (count - cl) := by
  induction fuel with
  | zero => intro st count cl ret; simp [Chain.readGo]
  | succ f ih =>
    intro st count cl ret
    rw [Chain.readGo]
    by_cases hlt : cl < count
    · rw [if_pos hlt]
      rcases hcur : st.currentLink with _ | link
      · simp
      · rcases hsub : st.linkSubCursor with _ | sub
        · simp
        · simp only
          have hlim : ((link.data.drop sub).take (count - cl)).length ≤ count - cl :=
            le_trans (List.length_take_le _ _) (le_refl _)
          refine le_trans (ih _ _ _ _) ?_
          rw [List.length_append]
          omega
    · rw [if_neg hlt]
      simp

/-- **C7** (amended): when the cursor is at or before `totalLength` (the
explicit `readLimitSize`), `Chain.read(n)` succeeds and returns at most
`totalLength - cursor` bytes (and at most `n`), so reads never extend past the
limit; but when a seek has placed the cursor strictly past `totalLength`,
`read` computes a negative buffer size and throws a `RangeError` instead of
returning a short result, which is what the counterexample below exhibits. -/
theorem chain_read_bounded (st : ChainState) (n : Nat) :
    (st.cursor ≤ st.totalLength →
      ∃ ret st2, Chain.read st n = some (ret, st2) ∧
        ret.length ≤ st.totalLength - st.cursor ∧ ret.length ≤ n) ∧
    (st.totalLength < st.cursor → Chain.read st n = none) := by
  constructor
  · intro hle
    simp only [Chain.read]
    rw [if_neg (by omega)]
    rcases hp : Chain.readGo (min st.totalLength (n + st.cursor) - st.cursor + 1) st
        (min st.totalLength (n + st.cursor) - st.cursor) 0 [] with ⟨ret, st2⟩
    have hlen := readGo_length_le (min st.totalLength (n + st.cursor) - st.cursor + 1) st
        (min st.totalLength (n + st.cursor) - st.cursor) 0 []
    rw [hp] at hlen
    simp only [List.length_nil] at hlen
    refine ⟨ret, st2, rfl, by omega, by omega⟩
  · intro hlt
    simp only [Chain.read]
    rw [if_pos hlt]

/-- **C7** (counterexample): a chain over one 4-byte link constructed with
byte limit 2; seeking to position 3 (legal: `seek` does not clamp) and then
reading throws a `RangeError` (`none`), not the short result the claim
promises for reads starting past `total_length()`. -/
theorem chain_read_past_limit_cex :
    Chain.read (Chain.seek (Chain.mkState [⟨4, [1, 2, 3, 4]⟩] (some 2)) 3 .start) 1 =
      none ∧
    (Chain.seek (Chain.mkState [⟨4, [1, 2, 3, 4]⟩] (some 2)) 3 .start).totalLength = 2 := by
  decide

/-- Witness for **C7** at a concrete in-bounds read. -/
theorem chain_read_bounded_witness :
    ∃ ret st2,
      Chain.read (Chain.mkState [⟨4, [1, 2, 3, 4]⟩] (some 2)) 3 = some (ret, st2) ∧
      ret.length ≤ 2 ∧ ret.length ≤ 3 :=
  (chain_read_bounded (Chain.mkState [⟨4, [1, 2, 3, 4]⟩] (some 2)) 3).1 (by decide)

/-! ## `constructors.ts`: directory entry decode/encode

`createFatFSDirectoryEntry` decodes the 32-byte record with the format
`<11sBB5s2sH4sHI` and keeps `_filenameStr = textDecoder.decode(filename)`;
`serializeFatFSDirectoryEntry` writes `textEncoder.encode(_filenameStr)` (not
the raw `filename` bytes) back.  `TextDecoder`/`TextEncoder` are the WHATWG
UTF-8 codec, modelled by `utf8Decode`/`utf8Encode` over code points: invalid
sequences decode to U+FFFD (with the offending non-continuation byte
reprocessed), which is what makes the round trip lossy for non-ASCII
filenames. -/

def utf8Decode : List Nat → List Nat
  | [] => []
  | b :: rest =>
    if b < 0x80 then b :: utf8Decode rest
    else if 0xC2 ≤ b ∧ b ≤ 0xDF then
      match hr : rest with
      | [] => [0xFFFD]
      | c1 :: rest2 =>
        if 0x80 ≤ c1 ∧ c1 ≤ 0xBF then
          ((b - 0xC0) * 64 + (c1 - 0x80)) :: utf8Decode rest2
        else 0xFFFD :: utf8Decode rest
    else if 0xE0 ≤ b ∧ b ≤ 0xEF then
      match hr : rest with
      | [] => [0xFFFD]
      | c1 :: rest2 =>
        if (if b = 0xE0 then 0xA0 else 0x80) ≤ c1 ∧
            c1 ≤ (if b = 0xED then 0x9F else 0xBF) then
          match hr2 : rest2 with
          | [] => [0xFFFD, 0xFFFD]
          | c2 :: rest3 =>
            if 0x80 ≤ c2 ∧ c2 ≤ 0xBF then
              ((b - 0xE0) * 4096 + (c1 - 0x80) * 64 + (c2 - 0x80)) :: utf8Decode rest3
            else 0xFFFD :: utf8Decode rest2
        else 0xFFFD :: utf8Decode rest
    else if 0xF0 ≤ b ∧ b ≤ 0xF4 then
      match hr : rest with
      | [] => [0xFFFD]
      | c1 :: rest2 =>
        if (if b = 0xF0 then 0x90 else 0x80) ≤ c1 ∧
            c1 ≤ (if b = 0xF4 then 0x8F else 0xBF) then
          match hr2 : rest2 with
          | [] => [0xFFFD, 0xFFFD]
          | c2 :: rest3 =>
            if 0x80 ≤ c2 ∧ c2 ≤ 0xBF then
              match hr3 : rest3 with
              | [] => [0xFFFD, 0xFFFD, 0xFFFD]
              | c3 :: rest4 =>
                if 0x80 ≤ c3 ∧ c3 ≤ 0xBF then
                  ((b - 0xF0) * 262144 + (c1 - 0x80) * 4096 + (c2 - 0x80) * 64 +
                    (c3 - 0x80)) :: utf8Decode rest4
                else 0xFFFD :: utf8Decode rest3
            else 0xFFFD :: utf8Decode rest2
        else 0xFFFD :: utf8Decode rest
    else 0xFFFD :: utf8Decode rest
termination_by l => l.length
decreasing_by
  all_goals simp_wf
  all_goals subst_vars
  all_goals simp_all [List.length_cons]
  all_goals omega

def utf8Encode : List Nat → List Nat
  | [] => []
  | c :: rest =>
    if c < 0x80 then c :: utf8Encode rest
    else if c < 0x800 then
      (0xC0 + c / 64) :: (0x80 + c % 64) :: utf8Encode rest
    else if c < 0x10000 then
      (0xE0 + c / 4096) :: (0x80 + c / 64 % 64) :: (0x80 + c % 64) :: utf8Encode rest
    else
      (0xF0 + c / 262144) :: (0x80 + c / 4096 % 64) :: (0x80 + c / 64 % 64) ::
        (0x80 + c % 64) :: utf8Encode rest

theorem utf8_roundtrip_ascii (l : List Nat) (h : ∀ b ∈ l, b < 0x80) :
    utf8Encode (utf8Decode l) = l := by
  induction l with
  | nil => simp [utf8Decode, utf8Encode]
  | cons b rest ih =>
    have hb : b < 0x80 := h b (List.mem_cons_self _ _)
    rw [utf8Decode.eq_def]
    simp only [if_pos hb]
    rw [utf8Encode]
    rw [if_pos hb]
    rw [ih (fun x hx => h x (List.mem_cons_of_mem _ hx))]

structure FatFSDirectoryEntry where
  filename : List Nat
  attribs : Int
  reserved : Int
  creationDate : List Nat
  accessedDate : List Nat
  firstClusterAddressHigh : Int
  writtenDate : List Nat
  firstClusterAddressLow : Int
  fileSize : Int
  filenameStr : List Nat
  lfns : Int
deriving DecidableEq, Repr

def sfrBytes : StructFormatResult → List Nat
  | .bytes b => b
  | .int _ => []

def sfrInt : StructFormatResult → Int
  | .int i => i
  | .bytes _ => 0

/-- `createFatFSDirectoryEntry` (`_filenameStr` is spelled `filenameStr`).
The record's field order follows the `<11sBB5s2sH4sHI` unpack. -/
def createFatFSDirectoryEntry (input : List Nat) (offset : Nat) : FatFSDirectoryEntry :=
  let data := structFormatUnpack "<11sBB5s2sH4sHI".toList input offset
  { filename := sfrBytes (data.getD 0 (.bytes []))
    attribs := sfrInt (data.getD 1 (.int 0))
    reserved := sfrInt (data.getD 2 (.int 0))
    creationDate := sfrBytes (data.getD 3 (.bytes []))
    accessedDate := sfrBytes (data.getD 4 (.bytes []))
    firstClusterAddressHigh := sfrInt (data.getD 5 (.int 0))
    writtenDate := sfrBytes (data.getD 6 (.bytes []))
    firstClusterAddressLow := sfrInt (data.getD 7 (.int 0))
    fileSize := sfrInt (data.getD 8 (.int 0))
    filenameStr := utf8Decode (sfrBytes (data.getD 0 (.bytes [])))
    lfns := 0 }

/-- `Uint8Array.prototype.set(bytes, offset)` (used in bounds here; an
overflowing JS `set` throws a RangeError, which no theorem below exercises). -/
def setBytes : List Nat → Nat → List Nat → List Nat
  | buf, _, [] => buf
  | buf, off, x :: rest => setBytes (buf.set off x) (off + 1) rest

/-- JS typed-array element assignment coercion (ToUint8). -/
def toUint8 (v : Int) : Nat := (v % 256).toNat

def serializeFatFSDirectoryEntry (input : FatFSDirectoryEntry) : List Nat :=
  let d0 := List.replicate 32 0
  let d1 := setBytes d0 0 (utf8Encode input.filenameStr)
  let d2 := d1.set 11 (toUint8 input.attribs)
  let d3 := d2.set 12 (toUint8 input.reserved)
  let d4 := setBytes d3 13 input.creationDate
  let d5 := setBytes d4 18 input.accessedDate
  let d6 := setUint16 d5 20 (input.firstClusterAddressHigh % 65536).toNat
  let d7 := setBytes d6 22 input.writtenDate
  let d8 := setUint16 d7 26 (input.firstClusterAddressLow % 65536).toNat
  setUint32 d8 28 (input.fileSize % 4294967296).toNat

/-! ### Arithmetic characterization of the decoded integer fields -/

theorem toUint32_ofNat (n : Nat) (h : n < 4294967296) : toUint32 (n : Int) = n := by
  unfold toUint32
  omega

theorem toInt32_small (n : Nat) (h : n < 2147483648) : toInt32 n = (n : Int) := by
  unfold toInt32
  rw [if_pos (by omega)]
  omega

theorem toUint32_toInt32 (v : Nat) (hv : v < 4294967296) : toUint32 (toInt32 v) = v := by
  unfold toInt32 toUint32
  by_cases h : v % 4294967296 < 2147483648
  · rw [if_pos h]
    omega
  · rw [if_neg h]
    omega

theorem jsOr_nat (a b : Nat) (ha : a < 2147483648) (hb : b < 2147483648) :
    jsOr (a : Int) (b : Int) = ((a ||| b : Nat) : Int) := by
  unfold jsOr
  rw [toUint32_ofNat a (by omega), toUint32_ofNat b (by omega)]
  have h31 : (2147483648 : Nat) = 2 ^ 31 := by norm_num
  exact toInt32_small _ (by rw [h31] at ha hb ⊢; exact Nat.or_lt_two_pow ha hb)

theorem jsShl8_nat (a : Nat) (h : a < 8388608) :
    jsShl (a : Int) 8 = ((a * 256 : Nat) : Int) := by
  unfold jsShl
  rw [toUint32_ofNat a (by omega)]
  have h2 : a <<< (8 % 32) = a * 256 := by
    rw [Nat.shiftLeft_eq]
  rw [h2]
  exact toInt32_small _ (by omega)

theorem jsShl8_wrap (a : Nat) (h : a < 16777216) :
    jsShl (a : Int) 8 = toInt32 (a * 256) := by
  unfold jsShl
  rw [toUint32_ofNat a (by omega)]
  congr 1
  rw [Nat.shiftLeft_eq]

theorem jsOr_toInt32_nat (v b : Nat) (hv : v < 4294967296) (hb : b < 2147483648) :
    jsOr (toInt32 v) (b : Int) = toInt32 (v ||| b) := by
  unfold jsOr
  rw [toUint32_toInt32 v hv, toUint32_ofNat b (by omega)]

theorem jsAnd_nat_left (a : Nat) (w : Int) (ha : a < 4294967296) :
    jsAnd (a : Int) w = toInt32 (a &&& toUint32 w) := by
  unfold jsAnd
  rw [toUint32_ofNat a ha]

theorem jsAnd_toInt32_left (v : Nat) (w : Int) (hv : v < 4294967296) :
    jsAnd (toInt32 v) w = toInt32 (v &&& toUint32 w) := by
  unfold jsAnd
  rw [toUint32_toInt32 v hv]

theorem nat_or_byte (h b : Nat) (hb : b < 256) : h * 256 ||| b = h * 256 + b := by
  have e : (2 : Nat) ^ 8 = 256 := by norm_num
  have hb2 : b < 2 ^ 8 := by omega
  have h2 := Nat.mul_add_lt_is_or hb2 h
  rw [e] at h2
  rw [Nat.mul_comm]
  omega

theorem and_128_lt (x : Nat) (h : x < 256) :
    x &&& 128 = if 128 ≤ x then 128 else 0 := by
  have h1 := Nat.and_two_pow x 7
  rw [Nat.testBit_to_div_mod] at h1
  have e : (2 : Nat) ^ 7 = 128 := by norm_num
  rw [e] at h1
  rw [h1]
  by_cases hx : 128 ≤ x
  · have hd : x / 128 % 2 = 1 := by omega
    rw [if_pos hx]
    simp [hd]
  · have hd : x / 128 % 2 = 0 := by omega
    rw [if_neg hx]
    simp [hd]

theorem and_32768_lt (x : Nat) (h : x < 65536) :
    x &&& 32768 = if 32768 ≤ x then 32768 else 0 := by
  have h1 := Nat.and_two_pow x 15
  rw [Nat.testBit_to_div_mod] at h1
  have e : (2 : Nat) ^ 15 = 32768 := by norm_num
  rw [e] at h1
  rw [h1]
  by_cases hx : 32768 ≤ x
  · have hd : x / 32768 % 2 = 1 := by omega
    rw [if_pos hx]
    simp [hd]
  · have hd : x / 32768 % 2 = 0 := by omega
    rw [if_neg hx]
    simp [hd]

theorem and_2pow31_lt (x : Nat) (h : x < 4294967296) :
    x &&& 2147483648 = if 2147483648 ≤ x then 2147483648 else 0 := by
  have h1 := Nat.and_two_pow x 31
  rw [Nat.testBit_to_div_mod] at h1
  have e : (2 : Nat) ^ 31 = 2147483648 := by norm_num
  rw [e] at h1
  rw [h1]
  by_cases hx : 2147483648 ≤ x
  · have hd : x / 2147483648 % 2 = 1 := by omega
    rw [if_pos hx]
    simp [hd]
  · have hd : x / 2147483648 % 2 = 0 := by omega
    rw [if_neg hx]
    simp [hd]

theorem and_127 (x : Nat) : x &&& 127 = x % 128 := by
  have h : (127 : Nat) = 2 ^ 7 - 1 := by norm_num
  rw [h, Nat.and_pow_two_sub_one_eq_mod]

theorem and_32767 (x : Nat) : x &&& 32767 = x % 32768 := by
  have h : (32767 : Nat) = 2 ^ 15 - 1 := by norm_num
  rw [h, Nat.and_pow_two_sub_one_eq_mod]

theorem and_2pow31m1 (x : Nat) : x &&& 2147483647 = x % 2147483648 := by
  have h : (2147483647 : Nat) = 2 ^ 31 - 1 := by norm_num
  rw [h, Nat.and_pow_two_sub_one_eq_mod]

theorem formInteger_1_eq (bs : List Nat) :
    formInteger .LITTLE bs 1 = jsOr (jsShl 0 8) ((bs.getD 0 0 : Nat) : Int) := rfl

theorem formInteger_2_eq (bs : List Nat) :
    formInteger .LITTLE bs 2 =
      jsOr (jsShl (jsOr (jsShl 0 8) ((bs.getD 1 0 : Nat) : Int)) 8)
        ((bs.getD 0 0 : Nat) : Int) := rfl

theorem formInteger_4_eq (bs : List Nat) :
    formInteger .LITTLE bs 4 =
      jsOr (jsShl (jsOr (jsShl (jsOr (jsShl (jsOr (jsShl 0 8)
        ((bs.getD 3 0 : Nat) : Int)) 8) ((bs.getD 2 0 : Nat) : Int)) 8)
        ((bs.getD 1 0 : Nat) : Int)) 8) ((bs.getD 0 0 : Nat) : Int) := rfl

theorem jsShl_zero_8 : jsShl 0 8 = ((0 : Nat) : Int) := by decide

/-- Decoded value of an upper-case 1-byte field: the code sign-extends it. -/
theorem decode_B (bs : List Nat) (h0 : bs.getD 0 0 < 256) :
    signAdjust 'B' 1 (formInteger .LITTLE bs 1) =
      if 128 ≤ bs.getD 0 0 then ((bs.getD 0 0 : Nat) : Int) - 256
      else ((bs.getD 0 0 : Nat) : Int) := by
  have hform : formInteger .LITTLE bs 1 = ((bs.getD 0 0 : Nat) : Int) := by
    rw [formInteger_1_eq, jsShl_zero_8, jsOr_nat 0 _ (by omega) (by omega)]
    simp
  rw [hform]
  have hsa : ∀ r : Int, signAdjust 'B' 1 r =
      if jsAnd r (jsShl 1 (1 * 8 - 1)) ≠ 0 then
        jsAnd r (jsShl 1 (1 * 8 - 1) - 1) - jsShl 1 (1 * 8 - 1) else r :=
    fun r => by
      unfold signAdjust
      rw [if_pos (by decide)]
  rw [hsa]
  have hm : jsShl (1 : Int) (1 * 8 - 1) = (128 : Int) := by decide
  rw [hm]
  have hm2 : (128 : Int) - 1 = 127 := by norm_num
  rw [hm2]
  have h127 : toUint32 (127 : Int) = 127 := by decide
  have h128 : toUint32 (128 : Int) = 128 := by decide
  rw [jsAnd_nat_left _ _ (by omega), jsAnd_nat_left _ _ (by omega), h127, h128]
  rw [and_128_lt _ h0, and_127]
  by_cases hx : 128 ≤ bs.getD 0 0
  · rw [if_pos hx, if_pos hx]
    rw [toInt32_small 128 (by omega)]
    rw [if_pos (by decide)]
    rw [toInt32_small _ (by omega)]
    omega
  · rw [if_neg hx, if_neg hx]
    rw [show toInt32 0 = (0 : Int) from by decide]
    rw [if_neg (by decide)]

/-- Decoded value of an upper-case 2-byte little-endian field: the code
sign-extends it. -/
theorem decode_H (bs : List Nat) (h0 : bs.getD 0 0 < 256) (h1 : bs.getD 1 0 < 256) :
    signAdjust 'H' 2 (formInteger .LITTLE bs 2) =
      if 32768 ≤ bs.getD 1 0 * 256 + bs.getD 0 0 then
        ((bs.getD 1 0 * 256 + bs.getD 0 0 : Nat) : Int) - 65536
      else ((bs.getD 1 0 * 256 + bs.getD 0 0 : Nat) : Int) := by
  have hform : formInteger .LITTLE bs 2 =
      ((bs.getD 1 0 * 256 + bs.getD 0 0 : Nat) : Int) := by
    rw [formInteger_2_eq, jsShl_zero_8, jsOr_nat 0 _ (by omega) (by omega)]
    simp only [Nat.zero_or]
    rw [jsShl8_nat _ (by omega), jsOr_nat _ _ (by omega) (by omega),
      nat_or_byte _ _ h0]
  rw [hform]
  have hsa : ∀ r : Int, signAdjust 'H' 2 r =
      if jsAnd r (jsShl 1 (2 * 8 - 1)) ≠ 0 then
        jsAnd r (jsShl 1 (2 * 8 - 1) - 1) - jsShl 1 (2 * 8 - 1) else r :=
    fun r => by
      unfold signAdjust
      rw [if_pos (by decide)]
  rw [hsa]
  have hm : jsShl (1 : Int) (2 * 8 - 1) = (32768 : Int) := by decide
  rw [hm]
  have hm2 : (32768 : Int) - 1 = 32767 := by norm_num
  rw [hm2]
  have h32767 : toUint32 (32767 : Int) = 32767 := by decide
  have h32768 : toUint32 (32768 : Int) = 32768 := by decide
  rw [jsAnd_nat_left _ _ (by omega), jsAnd_nat_left _ _ (by omega), h32767, h32768]
  rw [and_32768_lt _ (by omega), and_32767]
  by_cases hx : 32768 ≤ bs.getD 1 0 * 256 + bs.getD 0 0
  · rw [if_pos hx, if_pos hx]
    rw [toInt32_small 32768 (by omega)]
    rw [if_pos (by decide)]
    rw [toInt32_small _ (by omega)]
    omega
  · rw [if_neg hx, if_neg hx]
    rw [show toInt32 0 = (0 : Int) from by decide]
    rw [if_neg (by decide)]

/-- Decoded value of an upper-case 4-byte little-endian field: here the
two's-complement branch undoes the 32-bit wrap-around of the shift loop, so
the result is the plain unsigned value. -/
theorem decode_I (bs : List Nat) (h0 : bs.getD 0 0 < 256) (h1 : bs.getD 1 0 < 256)
    (h2 : bs.getD 2 0 < 256) (h3 : bs.getD 3 0 < 256) :
    signAdjust 'I' 4 (formInteger .LITTLE bs 4) =
      ((((bs.getD 3 0 * 256 + bs.getD 2 0) * 256 + bs.getD 1 0) * 256 + bs.getD 0 0
        : Nat) : Int) := by
  have hform : formInteger .LITTLE bs 4 =
      toInt32 (((bs.getD 3 0 * 256 + bs.getD 2 0) * 256 + bs.getD 1 0) * 256 +
        bs.getD 0 0) := by
    rw [formInteger_4_eq, jsShl_zero_8, jsOr_nat 0 _ (by omega) (by omega)]
    simp only [Nat.zero_or]
    rw [jsShl8_nat _ (by omega), jsOr_nat _ _ (by omega) (by omega),
      nat_or_byte _ _ h2]
    rw [jsShl8_nat _ (by omega), jsOr_nat _ _ (by omega) (by omega),
      nat_or_byte _ _ h1]
    rw [jsShl8_wrap _ (by omega), jsOr_toInt32_nat _ _ (by omega) (by omega),
      nat_or_byte _ _ h0]
  rw [hform]
  have hsa : ∀ r : Int, signAdjust 'I' 4 r =
      if jsAnd r (jsShl 1 (4 * 8 - 1)) ≠ 0 then
        jsAnd r (jsShl 1 (4 * 8 - 1) - 1) - jsShl 1 (4 * 8 - 1) else r :=
    fun r => by
      unfold signAdjust
      rw [if_pos (by decide)]
  rw [hsa]
  have hm : jsShl (1 : Int) (4 * 8 - 1) = (-2147483648 : Int) := by decide
  rw [hm]
  have hm2 : (-2147483648 : Int) - 1 = -2147483649 := by norm_num
  rw [hm2]
  have hA : toUint32 (-2147483648 : Int) = 2147483648 := by decide
  have hB : toUint32 (-2147483649 : Int) = 2147483647 := by decide
  rw [jsAnd_toInt32_left _ _ (by omega), jsAnd_toInt32_left _ _ (by omega), hA, hB]
  rw [and_2pow31_lt _ (by omega), and_2pow31m1]
  by_cases hx : 2147483648 ≤
      ((bs.getD 3 0 * 256 + bs.getD 2 0) * 256 + bs.getD 1 0) * 256 + bs.getD 0 0
  · rw [if_pos hx]
    rw [show toInt32 2147483648 = (-2147483648 : Int) from by decide]
    rw [if_pos (by decide)]
    rw [toInt32_small _ (by omega)]
    omega
  · rw [if_neg hx]
    rw [show toInt32 0 = (0 : Int) from by decide]
    rw [if_neg (by decide)]
    rw [toInt32_small _ (by omega)]

/-- `structFormatUnpack` on the directory entry format, in closed form. -/
theorem unpack_dirent (d : List Nat) :
    structFormatUnpack "<11sBB5s2sH4sHI".toList d 0 =
      [.bytes ((d.drop 0).take 11),
       .int (signAdjust 'B' 1 (formInteger .LITTLE ((d.drop 11).take 1) 1)),
       .int (signAdjust 'B' 1 (formInteger .LITTLE ((d.drop 12).take 1) 1)),
       .bytes ((d.drop 13).take 5),
       .bytes ((d.drop 18).take 2),
       .int (signAdjust 'H' 2 (formInteger .LITTLE ((d.drop 20).take 2) 2)),
       .bytes ((d.drop 22).take 4),
       .int (signAdjust 'H' 2 (formInteger .LITTLE ((d.drop 26).take 2) 2)),
       .int (signAdjust 'I' 4 (formInteger .LITTLE ((d.drop 28).take 4) 4))] := by
  rfl

theorem setBytes_length (bytes : List Nat) : ∀ (buf : List Nat) (off : Nat),
    (setBytes buf off bytes).length = buf.length := by
  induction bytes with
  | nil => intro buf off; rfl
  | cons x rest ih =>
    intro buf off
    rw [setBytes, ih]
    simp

theorem setBytes_getD (bytes : List Nat) : ∀ (buf : List Nat) (off c : Nat),
    (setBytes buf off bytes).getD c 0 =
      if off ≤ c ∧ c < off + bytes.length ∧ c < buf.length then bytes.getD (c - off) 0
      else buf.getD c 0 := by
  induction bytes with
  | nil =>
    intro buf off c
    rw [setBytes]
    rw [if_neg (by simp only [List.length_nil]; omega)]
  | cons x rest ih =>
    intro buf off c
    rw [setBytes, ih, List.length_set]
    simp only [List.length_cons]
    by_cases h1 : off + 1 ≤ c ∧ c < off + 1 + rest.length ∧ c < buf.length
    · rw [if_pos h1, if_pos (by omega)]
      have hco : c - off = (c - (off + 1)) + 1 := by omega
      rw [hco, List.getD_cons_succ]
    · rw [if_neg h1]
      by_cases h2 : c = off
      · subst h2
        by_cases h3 : c < buf.length
        · rw [getD_set_self_g _ _ _ _ h3, if_pos ⟨le_refl _, by omega, h3⟩]
          simp
        · rw [if_neg (by omega), List.set_eq_of_length_le (by omega)]
      · rw [getD_set_ne_g _ _ _ (fun h => h2 h.symm), if_neg (by omega)]

theorem getD_drop_take (l : List Nat) (k n j : Nat) (hj : j < n) :
    ((l.drop k).take n).getD j 0 = l.getD (k + j) 0 := by
  simp [List.getD_eq_getElem?_getD, List.getElem?_take, hj, List.getElem?_drop]

theorem setUint16_length (buf : List Nat) (i v : Nat) :
    (setUint16 buf i v).length = buf.length := by
  simp [setUint16]

theorem setUint32_length (buf : List Nat) (i v : Nat) :
    (setUint32 buf i v).length = buf.length := by
  simp [setUint32]

theorem setUint16_getD_out (buf : List Nat) (i v c : Nat) (h1 : c ≠ i) (h2 : c ≠ i + 1) :
    (setUint16 buf i v).getD c 0 = buf.getD c 0 := by
  unfold setUint16
  rw [getD_set_ne_g _ _ _ (fun h => h2 h.symm), getD_set_ne_g _ _ _ (fun h => h1 h.symm)]

theorem setUint16_getD0 (buf : List Nat) (i v : Nat) (h : i + 2 ≤ buf.length) :
    (setUint16 buf i v).getD i 0 = v % 256 := by
  unfold setUint16
  rw [getD_set_ne_g _ _ _ (by omega), getD_set_self_g _ _ _ _ (by omega)]

theorem setUint16_getD1 (buf : List Nat) (i v : Nat) (h : i + 2 ≤ buf.length) :
    (setUint16 buf i v).getD (i + 1) 0 = v / 256 % 256 := by
  unfold setUint16
  rw [getD_set_self_g _ _ _ _ (by simp only [List.length_set]; omega)]

theorem setUint32_getD_out (buf : List Nat) (i v c : Nat) (h1 : c ≠ i) (h2 : c ≠ i + 1)
    (h3 : c ≠ i + 2) (h4 : c ≠ i + 3) :
    (setUint32 buf i v).getD c 0 = buf.getD c 0 := by
  unfold setUint32
  rw [getD_set_ne_g _ _ _ (fun h => h4 h.symm), getD_set_ne_g _ _ _ (fun h => h3 h.symm),
    getD_set_ne_g _ _ _ (fun h => h2 h.symm), getD_set_ne_g _ _ _ (fun h => h1 h.symm)]

theorem setUint32_getD0 (buf : List Nat) (i v : Nat) (h : i + 4 ≤ buf.length) :
    (setUint32 buf i v).getD i 0 = v % 256 := by
  unfold setUint32
  rw [getD_set_ne_g _ _ _ (by omega), getD_set_ne_g _ _ _ (by omega),
    getD_set_ne_g _ _ _ (by omega), getD_set_self_g _ _ _ _ (by omega)]

theorem setUint32_getD1 (buf : List Nat) (i v : Nat) (h : i + 4 ≤ buf.length) :
    (setUint32 buf i v).getD (i + 1) 0 = v / 256 % 256 := by
  unfold setUint32
  rw [getD_set_ne_g _ _ _ (by omega), getD_set_ne_g _ _ _ (by omega),
    getD_set_self_g _ _ _ _ (by simp only [List.length_set]; omega)]

theorem setUint32_getD2 (buf : List Nat) (i v : Nat) (h : i + 4 ≤ buf.length) :
    (setUint32 buf i v).getD (i + 2) 0 = v / 65536 % 256 := by
  unfold setUint32
  rw [getD_set_ne_g _ _ _ (by omega),
    getD_set_self_g _ _ _ _ (by simp only [List.length_set]; omega)]

theorem setUint32_getD3 (buf : List Nat) (i v : Nat) (h : i + 4 ≤ buf.length) :
    (setUint32 buf i v).getD (i + 3) 0 = v / 16777216 % 256 := by
  unfold setUint32
  rw [getD_set_self_g _ _ _ _ (by simp only [List.length_set]; omega)]

theorem serialize_length (e : FatFSDirectoryEntry) :
    (serializeFatFSDirectoryEntry e).length = 32 := by
  unfold serializeFatFSDirectoryEntry
  rw [setUint32_length, setUint16_length, setBytes_length, setUint16_length,
    setBytes_length, setBytes_length, List.length_set, List.length_set,
    setBytes_length, List.length_replicate]

/-- **C6** (amended): re-encoding a decoded 32-byte directory entry is
byte-identical provided the 11 filename bytes are ASCII; the serializer
round-trips the name through WHATWG UTF-8 (decode to `_filenameStr`, encode on
write), which is the identity exactly on ASCII.  The numeric fields round-trip
for every byte value (the sign-extension bug of `structFormatUnpack` is undone
by the `ToUint8`/`ToUint16`/`ToUint32` coercions on write). -/
theorem dirent_roundtrip (record : List Nat) (hlen : record.length = 32)
    (hb : ∀ b ∈ record, b < 256) (hascii : ∀ b ∈ record.take 11, b < 128) :
    serializeFatFSDirectoryEntry (createFatFSDirectoryEntry record 0) = record := by
  have hgb : ∀ j, j < 32 → record.getD j 0 < 256 := by
    intro j hj
    rw [List.getD_eq_getElem _ _ (by omega)]
    exact hb _ (List.getElem_mem _)
  have hga : ∀ j, j < 11 → record.getD j 0 < 128 := by
    intro j hj
    have ht := getD_drop_take record 0 11 j hj
    simp only [List.drop_zero, Nat.zero_add] at ht
    rw [← ht, List.getD_eq_getElem _ _ (by simp only [List.length_take, hlen]; omega)]
    exact hascii _ (List.getElem_mem _)
  have hcreate : createFatFSDirectoryEntry record 0 =
      { filename := (record.drop 0).take 11
        attribs := signAdjust 'B' 1 (formInteger .LITTLE ((record.drop 11).take 1) 1)
        reserved := signAdjust 'B' 1 (formInteger .LITTLE ((record.drop 12).take 1) 1)
        creationDate := (record.drop 13).take 5
        accessedDate := (record.drop 18).take 2
        firstClusterAddressHigh :=
          signAdjust 'H' 2 (formInteger .LITTLE ((record.drop 20).take 2) 2)
        writtenDate := (record.drop 22).take 4
        firstClusterAddressLow :=
          signAdjust 'H' 2 (formInteger .LITTLE ((record.drop 26).take 2) 2)
        fileSize := signAdjust 'I' 4 (formInteger .LITTLE ((record.drop 28).take 4) 4)
        filenameStr := utf8Decode ((record.drop 0).take 11)
        lfns := 0 } := by
    unfold createFatFSDirectoryEntry
    rw [unpack_dirent]
    rfl
  rw [hcreate]
  have hfn : utf8Encode (utf8Decode ((record.drop 0).take 11)) =
      (record.drop 0).take 11 := by
    apply utf8_roundtrip_ascii
    intro b hbmem
    apply hascii
    simpa [List.drop_zero] using hbmem
  apply List.ext_getElem (by rw [serialize_length]; omega)
  intro i h1 h2
  rw [← List.getD_eq_getElem _ 0 h1, ← List.getD_eq_getElem _ 0 h2]
  have hi32 : i < 32 := by omega
  simp only [serializeFatFSDirectoryEntry, hfn]
  rw [List.drop_zero]
  have h11 := hgb 11 (by omega)
  have h12 := hgb 12 (by omega)
  have h20 := hgb 20 (by omega)
  have h21 := hgb 21 (by omega)
  have h26 := hgb 26 (by omega)
  have h27 := hgb 27 (by omega)
  have h28 := hgb 28 (by omega)
  have h29 := hgb 29 (by omega)
  have h30 := hgb 30 (by omega)
  have h31 := hgb 31 (by omega)
  have e11 : (List.take 1 (List.drop 11 record)).getD 0 0 = record.getD 11 0 := by
    simpa using getD_drop_take record 11 1 0 (by omega)
  have e12 : (List.take 1 (List.drop 12 record)).getD 0 0 = record.getD 12 0 := by
    simpa using getD_drop_take record 12 1 0 (by omega)
  have e20 : (List.take 2 (List.drop 20 record)).getD 0 0 = record.getD 20 0 := by
    simpa using getD_drop_take record 20 2 0 (by omega)
  have e21 : (List.take 2 (List.drop 20 record)).getD 1 0 = record.getD 21 0 := by
    simpa using getD_drop_take record 20 2 1 (by omega)
  have e26 : (List.take 2 (List.drop 26 record)).getD 0 0 = record.getD 26 0 := by
    simpa using getD_drop_take record 26 2 0 (by omega)
  have e27 : (List.take 2 (List.drop 26 record)).getD 1 0 = record.getD 27 0 := by
    simpa using getD_drop_take record 26 2 1 (by omega)
  have e28 : (List.take 4 (List.drop 28 record)).getD 0 0 = record.getD 28 0 := by
    simpa using getD_drop_take record 28 4 0 (by omega)
  have e29 : (List.take 4 (List.drop 28 record)).getD 1 0 = record.getD 29 0 := by
    simpa using getD_drop_take record 28 4 1 (by omega)
  have e30 : (List.take 4 (List.drop 28 record)).getD 2 0 = record.getD 30 0 := by
    simpa using getD_drop_take record 28 4 2 (by omega)
  have e31 : (List.take 4 (List.drop 28 record)).getD 3 0 = record.getD 31 0 := by
    simpa using getD_drop_take record 28 4 3 (by omega)
  have hA11 : toUint8 (signAdjust 'B' 1
      (formInteger .LITTLE (List.take 1 (List.drop 11 record)) 1)) = record.getD 11 0 := by
    rw [decode_B _ (by rw [e11]; exact h11), e11]
    unfold toUint8
    by_cases hx : 128 ≤ record.getD 11 0
    · rw [if_pos hx]
      omega
    · rw [if_neg hx]
      omega
  have hA12 : toUint8 (signAdjust 'B' 1
      (formInteger .LITTLE (List.take 1 (List.drop 12 record)) 1)) = record.getD 12 0 := by
    rw [decode_B _ (by rw [e12]; exact h12), e12]
    unfold toUint8
    by_cases hx : 128 ≤ record.getD 12 0
    · rw [if_pos hx]
      omega
    · rw [if_neg hx]
      omega
  have hHIv : ((signAdjust 'H' 2
      (formInteger .LITTLE (List.take 2 (List.drop 20 record)) 2)) % 65536).toNat =
      record.getD 21 0 * 256 + record.getD 20 0 := by
    rw [decode_H _ (by rw [e20]; exact h20) (by rw [e21]; exact h21), e20, e21]
    by_cases hx : 32768 ≤ record.getD 21 0 * 256 + record.getD 20 0
    · rw [if_pos hx]
      omega
    · rw [if_neg hx]
      omega
  have hLOv : ((signAdjust 'H' 2
      (formInteger .LITTLE (List.take 2 (List.drop 26 record)) 2)) % 65536).toNat =
      record.getD 27 0 * 256 + record.getD 26 0 := by
    rw [decode_H _ (by rw [e26]; exact h26) (by rw [e27]; exact h27), e26, e27]
    by_cases hx : 32768 ≤ record.getD 27 0 * 256 + record.getD 26 0
    · rw [if_pos hx]
      omega
    · rw [if_neg hx]
      omega
  have hSZv : ((signAdjust 'I' 4
      (formInteger .LITTLE (List.take 4 (List.drop 28 record)) 4)) % 4294967296).toNat =
      ((record.getD 31 0 * 256 + record.getD 30 0) * 256 + record.getD 29 0) * 256 +
        record.getD 28 0 := by
    rw [decode_I _ (by rw [e28]; exact h28) (by rw [e29]; exact h29)
      (by rw [e30]; exact h30) (by rw [e31]; exact h31), e28, e29, e30, e31]
    omega
  by_cases c28 : 28 ≤ i
  · interval_cases i
    · rw [setUint32_getD0 _ _ _ (by simp only [setBytes_length, setUint16_length, setUint32_length, List.length_set, List.length_replicate]; omega), hSZv]
      omega
    · rw [show (29 : Nat) = 28 + 1 from rfl, setUint32_getD1 _ _ _ (by simp only [setBytes_length, setUint16_length, setUint32_length, List.length_set, List.length_replicate]; omega), hSZv]
      have e : record.getD (28 + 1) 0 = record.getD 29 0 := rfl
      rw [e]
      omega
    · rw [show (30 : Nat) = 28 + 2 from rfl, setUint32_getD2 _ _ _ (by simp only [setBytes_length, setUint16_length, setUint32_length, List.length_set, List.length_replicate]; omega), hSZv]
      have e : record.getD (28 + 2) 0 = record.getD 30 0 := rfl
      rw [e]
      omega
    · rw [show (31 : Nat) = 28 + 3 from rfl, setUint32_getD3 _ _ _ (by simp only [setBytes_length, setUint16_length, setUint32_length, List.length_set, List.length_replicate]; omega), hSZv]
      have e : record.getD (28 + 3) 0 = record.getD 31 0 := rfl
      rw [e]
      omega
  · rw [setUint32_getD_out _ _ _ _ (by omega) (by omega) (by omega) (by omega)]
    by_cases c26 : 26 ≤ i
    · interval_cases i
      · rw [setUint16_getD0 _ _ _ (by simp only [setBytes_length, setUint16_length, setUint32_length, List.length_set, List.length_replicate]; omega), hLOv]
        omega
      · rw [show (27 : Nat) = 26 + 1 from rfl, setUint16_getD1 _ _ _ (by simp only [setBytes_length, setUint16_length, setUint32_length, List.length_set, List.length_replicate]; omega), hLOv]
        have e : record.getD (26 + 1) 0 = record.getD 27 0 := rfl
        rw [e]
        omega
    · rw [setUint16_getD_out _ _ _ _ (by omega) (by omega)]
      by_cases c22 : 22 ≤ i
      · rw [setBytes_getD, if_pos ⟨by omega, by simp only [List.length_take, List.length_drop, hlen]; omega, by simp only [setBytes_length, setUint16_length, setUint32_length, List.length_set, List.length_replicate]; omega⟩]
        have ht := getD_drop_take record 22 4 (i - 22) (by omega)
        rw [ht, show 22 + (i - 22) = i from by omega]
      · rw [setBytes_getD, if_neg (by simp only [List.length_take, List.length_drop, hlen]; omega)]
        by_cases c20 : 20 ≤ i
        · interval_cases i
          · rw [setUint16_getD0 _ _ _ (by simp only [setBytes_length, setUint16_length, setUint32_length, List.length_set, List.length_replicate]; omega), hHIv]
            omega
          · rw [show (21 : Nat) = 20 + 1 from rfl, setUint16_getD1 _ _ _ (by simp only [setBytes_length, setUint16_length, setUint32_length, List.length_set, List.length_replicate]; omega), hHIv]
            have e : record.getD (20 + 1) 0 = record.getD 21 0 := rfl
            rw [e]
            omega
        · rw [setUint16_getD_out _ _ _ _ (by omega) (by omega)]
          by_cases c18 : 18 ≤ i
          · rw [setBytes_getD, if_pos ⟨by omega, by simp only [List.length_take, List.length_drop, hlen]; omega, by simp only [setBytes_length, setUint16_length, setUint32_length, List.length_set, List.length_replicate]; omega⟩]
            have ht := getD_drop_take record 18 2 (i - 18) (by omega)
            rw [ht, show 18 + (i - 18) = i from by omega]
          · rw [setBytes_getD, if_neg (by simp only [List.length_take, List.length_drop, hlen]; omega)]
            by_cases c13 : 13 ≤ i
            · rw [setBytes_getD, if_pos ⟨by omega, by simp only [List.length_take, List.length_drop, hlen]; omega, by simp only [setBytes_length, setUint16_length, setUint32_length, List.length_set, List.length_replicate]; omega⟩]
              have ht := getD_drop_take record 13 5 (i - 13) (by omega)
              rw [ht, show 13 + (i - 13) = i from by omega]
            · rw [setBytes_getD, if_neg (by simp only [List.length_take, List.length_drop, hlen]; omega)]
              by_cases c12 : i = 12
              · subst c12
                rw [getD_set_self_g _ _ _ _ (by simp only [setBytes_length, setUint16_length, setUint32_length, List.length_set, List.length_replicate]; omega)]
                exact hA12
              · rw [getD_set_ne_g _ _ _ (fun h => c12 h.symm)]
                by_cases c11 : i = 11
                · subst c11
                  rw [getD_set_self_g _ _ _ _ (by simp only [setBytes_length, setUint16_length, setUint32_length, List.length_set, List.length_replicate]; omega)]
                  exact hA11
                · rw [getD_set_ne_g _ _ _ (fun h => c11 h.symm)]
                  rw [setBytes_getD,
                    if_pos ⟨by omega, by simp only [List.length_take, hlen]; omega,
                      by simp only [setBytes_length, setUint16_length, setUint32_length, List.length_set, List.length_replicate]; omega⟩]
                  have ht := getD_drop_take record 0 11 (i - 0) (by omega)
                  simp only [List.drop_zero, Nat.zero_add] at ht
                  rw [ht, Nat.sub_zero]

theorem utf8Decode_ascii_eq (l : List Nat) (h : ∀ b ∈ l, b < 0x80) :
    utf8Decode l = l := by
  induction l with
  | nil => simp [utf8Decode]
  | cons b rest ih =>
    have hb : b < 0x80 := h b (List.mem_cons_self _ _)
    rw [utf8Decode.eq_def]
    simp only [if_pos hb]
    rw [ih (fun x hx => h x (List.mem_cons_of_mem _ hx))]

/-- **C6** counterexample: the decode/encode round trip is NOT byte-identical
for every on-disk record.  A filename byte `0x80` (legal on disk: the OEM
character sets use `0x80`–`0xFF`, and `0xE5` marks deletion) is an invalid
UTF-8 sequence, so `TextDecoder` turns it into U+FFFD and `TextEncoder` writes
it back as the three bytes `EF BF BD`, shifting the rest of the name. -/
theorem dirent_roundtrip_cex :
    serializeFatFSDirectoryEntry
        (createFatFSDirectoryEntry (0x80 :: List.replicate 31 0) 0) ≠
      0x80 :: List.replicate 31 0 := by
  have hdec : utf8Decode (((0x80 :: List.replicate 31 0).drop 0).take 11) =
      0xFFFD :: List.replicate 10 0 := by
    have h1 : ((0x80 :: List.replicate 31 0).drop 0).take 11 =
        0x80 :: List.replicate 10 0 := by decide
    rw [h1, utf8Decode.eq_def]
    norm_num
    exact utf8Decode_ascii_eq _ (by decide)
  have hcreate : createFatFSDirectoryEntry (0x80 :: List.replicate 31 0) 0 =
      { filename := (((0x80 :: List.replicate 31 0) : List Nat).drop 0).take 11
        attribs := signAdjust 'B' 1
          (formInteger .LITTLE (((0x80 :: List.replicate 31 0).drop 11).take 1) 1)
        reserved := signAdjust 'B' 1
          (formInteger .LITTLE (((0x80 :: List.replicate 31 0).drop 12).take 1) 1)
        creationDate := ((0x80 :: List.replicate 31 0).drop 13).take 5
        accessedDate := ((0x80 :: List.replicate 31 0).drop 18).take 2
        firstClusterAddressHigh := signAdjust 'H' 2
          (formInteger .LITTLE (((0x80 :: List.replicate 31 0).drop 20).take 2) 2)
        writtenDate := ((0x80 :: List.replicate 31 0).drop 22).take 4
        firstClusterAddressLow := signAdjust 'H' 2
          (formInteger .LITTLE (((0x80 :: List.replicate 31 0).drop 26).take 2) 2)
        fileSize := signAdjust 'I' 4
          (formInteger .LITTLE (((0x80 :: List.replicate 31 0).drop 28).take 4) 4)
        filenameStr := utf8Decode (((0x80 :: List.replicate 31 0).drop 0).take 11)
        lfns := 0 } := by
    unfold createFatFSDirectoryEntry
    rw [unpack_dirent]
    rfl
  rw [hcreate, hdec]
  decide

theorem dirent_roundtrip_witness :
    ([70, 73, 76, 69, 32, 32, 32, 32, 84, 88, 84, 32, 0, 1, 2, 3, 4, 5, 6, 7,
      52, 18, 8, 9, 10, 11, 16, 0, 120, 86, 52, 18] : List Nat).length = 32 ∧
    serializeFatFSDirectoryEntry
        (createFatFSDirectoryEntry
          [70, 73, 76, 69, 32, 32, 32, 32, 84, 88, 84, 32, 0, 1, 2, 3, 4, 5, 6,
            7, 52, 18, 8, 9, 10, 11, 16, 0, 120, 86, 52, 18] 0) =
      [70, 73, 76, 69, 32, 32, 32, 32, 84, 88, 84, 32, 0, 1, 2, 3, 4, 5, 6, 7,
        52, 18, 8, 9, 10, 11, 16, 0, 120, 86, 52, 18] :=
  ⟨by decide,
   dirent_roundtrip
     [70, 73, 76, 69, 32, 32, 32, 32, 84, 88, 84, 32, 0, 1, 2, 3, 4, 5, 6, 7,
       52, 18, 8, 9, 10, 11, 16, 0, 120, 86, 52, 18]
     (by decide) (by decide) (by decide)⟩

/-! ## C8: `getClusterChainFromFAT` (`low-level.ts`)

```
let link = initialCluster;
const links = [link];
while(!([...this.endOfChain, 0x00].includes(link = this.readFATClusterEntry!(link)))) {
    if(links.includes(link)) throw new Error("Infinite allocation loop!");
    links.push(link);
}
return links;
```

`endOfChain` is set at load time to the eight EOC markers of the FAT width.
`readFATClusterEntry` reads the FAT through a `DataView`; a `DataView` access
past the end of the buffer throws a `RangeError`, modelled by
`readFATClusterEntryChecked` returning `none` (the in-range value is exactly
`readFATClusterEntry`).  The cycle `throw` is `.infiniteAllocationLoop`. -/

def endOfChainList : FatType → List Nat
  | .Fat12 => (List.range 8).map (fun i => 0xFF8 + i)
  | .Fat16 => (List.range 8).map (fun i => 0xFFF8 + i)
  | .Fat32 => (List.range 8).map (fun i => 0x0FFFFFF8 + i)

def readFATClusterEntryChecked (ft : FatType) (fat : List Nat) (number : Nat) :
    Option Nat :=
  match ft with
  | .Fat12 =>
    if number / 2 * 3 + 3 ≤ fat.length then some (readFATClusterEntry .Fat12 fat number)
    else none
  | .Fat16 =>
    if number * 2 + 2 ≤ fat.length then some (readFATClusterEntry .Fat16 fat number)
    else none
  | .Fat32 =>
    if number * 4 + 4 ≤ fat.length then some (readFATClusterEntry .Fat32 fat number)
    else none

theorem readFATClusterEntryChecked_some_lt {ft : FatType} {fat : List Nat} {n v : Nat}
    (h : readFATClusterEntryChecked ft fat n = some v) : n < fat.length := by
  cases ft <;> simp only [readFATClusterEntryChecked] at h <;> split at h <;>
    simp_all <;> omega

def getClusterChainFromFATGo (ft : FatType) (fat : List Nat) (links : List Nat)
    (link : Nat) : Except FatError (List Nat) :=
  match h : readFATClusterEntryChecked ft fat link with
  | none => .error .rangeError
  | some next =>
    if next ∈ endOfChainList ft ++ [0x00] then .ok links
    else if next ∈ links then .error .infiniteAllocationLoop
    else getClusterChainFromFATGo ft fat (links ++ [next]) next
termination_by
  ((Finset.range fat.length \ links.toFinset).card,
   if (readFATClusterEntryChecked ft fat link).isSome then 1 else 0)
decreasing_by
  simp_wf
  rename_i hmem
  by_cases hlt : next < fat.length
  · apply Prod.Lex.left
    apply Finset.card_lt_card
    have hsub : Finset.range fat.length \ (links.toFinset ∪ {next}) ⊆
        Finset.range fat.length \ links.toFinset :=
      Finset.sdiff_subset_sdiff (le_refl _) Finset.subset_union_left
    rw [Finset.ssubset_iff_of_subset hsub]
    refine ⟨next, ?_, ?_⟩
    · simp only [Finset.mem_sdiff, Finset.mem_range, List.mem_toFinset]
      exact ⟨hlt, hmem⟩
    · simp
  · have hnone : readFATClusterEntryChecked ft fat next = none := by
      cases hre : readFATClusterEntryChecked ft fat next with
      | none => rfl
      | some v => exact absurd (readFATClusterEntryChecked_some_lt hre) hlt
    have hcard : (Finset.range fat.length \ (links.toFinset ∪ {next})).card =
        (Finset.range fat.length \ links.toFinset).card := by
      congr 1
      ext x
      by_cases hx2 : x = next
      · subst hx2
        simp [Finset.mem_sdiff, Finset.mem_union, Finset.mem_singleton,
          Finset.mem_range, hlt]
      · simp [Finset.mem_sdiff, Finset.mem_union, Finset.mem_singleton,
          Finset.mem_range, hx2]
    rw [hcard, h, hnone]
    exact Prod.Lex.right _ (by simp)

def getClusterChainFromFAT (ft : FatType) (fat : List Nat) (initialCluster : Nat) :
    Except FatError (List Nat) :=
  getClusterChainFromFATGo ft fat [initialCluster] initialCluster

/-- Each link is obtained from its predecessor by a successful FAT read, and no
link after the head is an end-of-chain marker or `0x00` (the chain really stops
at the first terminator). -/
def chainConsecutive (ft : FatType) (fat : List Nat) (l : List Nat) : Prop :=
  ∀ i, i + 1 < l.length →
    readFATClusterEntryChecked ft fat (l.getD i 0) = some (l.getD (i + 1) 0) ∧
    l.getD (i + 1) 0 ∉ endOfChainList ft ++ [0x00]

/-- The FAT entry of the last link is an end-of-chain marker or `0x00`. -/
def chainTerminated (ft : FatType) (fat : List Nat) (l : List Nat) : Prop :=
  ∃ last v, l.getLast? = some last ∧ readFATClusterEntryChecked ft fat last = some v ∧
    v ∈ endOfChainList ft ++ [0x00]

theorem getD_concat_len (l : List Nat) (b : Nat) : (l ++ [b]).getD l.length 0 = b := by
  rw [List.getD_eq_getElem?_getD, List.getElem?_concat_length]
  rfl

theorem chainConsecutive_concat (ft : FatType) (fat : List Nat) (l : List Nat)
    (a b : Nat) (hl : chainConsecutive ft fat l) (hlast : l.getLast? = some a)
    (hread : readFATClusterEntryChecked ft fat a = some b)
    (hb : b ∉ endOfChainList ft ++ [0x00]) :
    chainConsecutive ft fat (l ++ [b]) := by
  have hlen : 1 ≤ l.length := by
    cases l with
    | nil => simp at hlast
    | cons x r => simp
  intro i hi
  rw [List.length_append, List.length_singleton] at hi
  by_cases hilt : i + 1 < l.length
  · rw [List.getD_append _ _ _ _ (by omega), List.getD_append _ _ _ _ hilt]
    exact hl i hilt
  · have hieq : i + 1 = l.length := by omega
    have hgl : l.getD i 0 = a := by
      have hget : l[i]? = some a := by
        rw [show i = l.length - 1 from by omega, ← List.getLast?_eq_getElem?]
        exact hlast
      rw [List.getD_eq_getElem?_getD, hget]
      rfl
    have hgb : (l ++ [b]).getD (i + 1) 0 = b := by
      rw [hieq, getD_concat_len]
    rw [hgb, List.getD_append _ _ _ _ (by omega), hgl]
    exact ⟨hread, hb⟩

theorem getClusterChainGo_spec (ft : FatType) (fat : List Nat) (links : List Nat)
    (link : Nat) :
    links ≠ [] → links.getLast? = some link → links.Nodup →
    chainConsecutive ft fat links →
    (∃ l, getClusterChainFromFATGo ft fat links link = .ok l ∧ l.Nodup ∧
        l.head? = links.head? ∧ chainConsecutive ft fat l ∧ chainTerminated ft fat l) ∨
    getClusterChainFromFATGo ft fat links link = .error .infiniteAllocationLoop ∨
    getClusterChainFromFATGo ft fat links link = .error .rangeError := by
  induction links, link using getClusterChainFromFATGo.induct ft fat with
  | case1 links link h =>
    intro _ _ _ _
    right; right
    rw [getClusterChainFromFATGo.eq_def, h]
  | case2 links link next h heoc =>
    intro hne hlast hnd hcons
    left
    refine ⟨links, ?_, hnd, rfl, hcons, link, next, hlast, h, heoc⟩
    rw [getClusterChainFromFATGo.eq_def, h]
    simp only [if_pos heoc]
  | case3 links link next h heoc hmem =>
    intro _ _ _ _
    right; left
    rw [getClusterChainFromFATGo.eq_def, h]
    simp only [if_neg heoc, if_pos hmem]
  | case4 links link next h heoc hmem ih =>
    intro hne hlast hnd hcons
    have hne' : links ++ [next] ≠ [] := by simp
    have hlast' : (links ++ [next]).getLast? = some next := List.getLast?_concat _
    have hnd' : (links ++ [next]).Nodup := by
      rw [List.nodup_append]
      exact ⟨hnd, List.nodup_singleton _, by simpa using hmem⟩
    have hcons' : chainConsecutive ft fat (links ++ [next]) :=
      chainConsecutive_concat ft fat links link next hcons hlast h heoc
    have hstep : getClusterChainFromFATGo ft fat links link =
        getClusterChainFromFATGo ft fat (links ++ [next]) next := by
      rw [getClusterChainFromFATGo.eq_def, h]
      simp only [if_neg heoc, if_neg hmem]
    have hhead : (links ++ [next]).head? = links.head? := by
      cases links with
      | nil => exact absurd rfl hne
      | cons x r => rfl
    rw [hstep]
    rcases ih hne' hlast' hnd' hcons' with ⟨l, hok, hl1, hl2, hl3, hl4⟩ | hh | hh
    · left
      exact ⟨l, hok, hl1, by rw [hl2, hhead], hl3, hl4⟩
    · right; left; exact hh
    · right; right; exact hh

/-- **C8** (amended): for every finite FAT buffer and starting cluster the
chain walk terminates, with THREE possible outcomes: a duplicate-free cluster
list that starts at the initial cluster, follows the FAT link by link, and
stops at the first entry whose value is `0x00` or an end-of-chain marker; the
`Infinite allocation loop!` error when the next value is already in the
accumulated chain; or a `RangeError` when a link's FAT entry lies outside the
FAT buffer (the claim's two outcomes do not cover the third). -/
theorem getClusterChainFromFAT_spec (ft : FatType) (fat : List Nat) (initial : Nat) :
    (∃ l, getClusterChainFromFAT ft fat initial = .ok l ∧ l.Nodup ∧
        l.head? = some initial ∧ chainConsecutive ft fat l ∧ chainTerminated ft fat l) ∨
    getClusterChainFromFAT ft fat initial = .error .infiniteAllocationLoop ∨
    getClusterChainFromFAT ft fat initial = .error .rangeError := by
  have h := getClusterChainGo_spec ft fat [initial] initial (by simp) (by simp)
    (List.nodup_singleton _) (by intro i hi; simp at hi)
  rw [getClusterChainFromFAT]
  rcases h with ⟨l, hok, h1, h2, h3, h4⟩ | h | h
  · exact Or.inl ⟨l, hok, h1, by simpa using h2, h3, h4⟩
  · exact Or.inr (Or.inl h)
  · exact Or.inr (Or.inr h)

/-- **C8** counterexample input: a FAT16 volume whose FAT buffer is empty (or
any start cluster whose entry lies past the FAT): the very first
`DataView.getUint16` is out of range, so the traversal throws a `RangeError` —
neither a returned list nor the cycle error foreseen by the claim. -/
theorem cluster_chain_range_error_cex :
    getClusterChainFromFAT .Fat16 [] 5 = .error .rangeError := by
  rw [getClusterChainFromFAT, getClusterChainFromFATGo.eq_def]
  rfl

/-! ## C10: 8.3 names and path traversal (`utils.ts`, `low-level.ts`)

String values are `List Char`.  `traverseEntries` resolves every path segment
through `name83toNormal(nameNormalTo83(segment))`, i.e. each segment is
truncated to its 8.3 form before matching (`// TODO: LFN support!`). -/

def jsWhitespaceChar (c : Char) : Bool :=
  c = ' ' || c = '\t' || c = '\n' || c = '\r'

/-- `String.prototype.trim` (the names being trimmed only carry spaces). -/
def jsTrim (l : List Char) : List Char :=
  ((l.dropWhile jsWhitespaceChar).reverse.dropWhile jsWhitespaceChar).reverse

/-- `name.lastIndexOf('.')`, `none` for `-1`. -/
def lastIndexOfDot : List Char → Option Nat
  | [] => none
  | c :: r =>
    match lastIndexOfDot r with
    | some i => some (i + 1)
    | none => if c = '.' then some 0 else none

def splitExt (name : List Char) : List Char × List Char :=
  match lastIndexOfDot name with
  | none => (name, [])
  | some i => (name.take i, name.drop (i + 1))

def splitExt83 (name : List Char) : Except FatError (List Char × List Char) :=
  if name.length ≠ 8 + 3 then .error .invalidName
  else .ok (jsTrim (name.take 8), jsTrim (name.drop 8))

def name83toNormal (n : List Char) : Except FatError (List Char) :=
  match splitExt83 n with
  | .error e => .error e
  | .ok (name, ext) => .ok (if ext = [] then name else name ++ '.' :: ext)

def nameNormalTo83 (normalName : List Char) : List Char :=
  let p := splitExt normalName
  let name := if 8 < p.1.length then p.1.take 8 else p.1
  let ext := if 3 < p.2.length then p.2.take 3 else p.2
  let name2 := name ++ List.replicate (8 - name.length) ' '
  let ext2 := ext ++ List.replicate (3 - ext.length) ' '
  name2 ++ ext2

def namesEqual (normalName name83 : List Char) : Except FatError Bool :=
  match splitExt83 name83 with
  | .error e => .error e
  | .ok (name2, ext2) =>
    let p := splitExt normalName
    .ok (p.1.map jsToLower == name2.map jsToLower && p.2.map jsToLower == ext2.map jsToLower)

/-- `CachedFatDirectoryEntry`: a `CachedDirectory` (with its `underlying`
entry's `_filenameStr` and cached child entries) or a plain
`FatFSDirectoryEntry` (its `_filenameStr` and `attribs`). -/
inductive CachedEntry where
  | file (filenameStr : List Char) (attribs : Int)
  | dir (filenameStr : List Char) (entries : List CachedEntry)

def CachedEntry.isDirB : CachedEntry → Bool
  | .dir _ _ => true
  | .file _ _ => false

/-- `FORBIDDEN_ATTRIBUTES_FOR_FILE = Directory | VolumeLabel`. -/
def FORBIDDEN_ATTRIBUTES_FOR_FILE : Int := 0x18

/-- `CachedDirectory.findEntry(name)` (no `typeRequired`): `entries.find(...)`
with `namesEqual` against each entry's `_filenameStr`; a thrown
`FatError("Invalid 8.3 file name")` from `splitExt83` propagates. -/
def findEntryGo (name : List Char) : List CachedEntry → Except FatError (Option CachedEntry)
  | [] => .ok none
  | e :: rest =>
    match e with
    | .dir fn _ =>
      match namesEqual name fn with
      | .error err => .error err
      | .ok true => .ok (some e)
      | .ok false => findEntryGo name rest
    | .file fn attribs =>
      if jsAnd attribs FORBIDDEN_ATTRIBUTES_FOR_FILE ≠ 0 then findEntryGo name rest
      else
        match namesEqual name fn with
        | .error err => .error err
        | .ok true => if attribs ≠ 0x0F then .ok (some e) else findEntryGo name rest
        | .ok false => findEntryGo name rest

/-- The `for` loop of `traverseEntries`: `acc` is `roots`, one segment per
iteration; `.ok none` is the `return null`.  The `.file` fallthrough models the
`(currentRoot as CachedDirectory).findEntry` TypeError, unreachable because the
loop returns `null` before descending into a non-directory. -/
def traverseEntriesGo (current : CachedEntry) (acc : List CachedEntry) :
    List (List Char) → Except FatError (Option (List CachedEntry))
  | [] => .ok (some acc)
  | seg :: rest =>
    match current with
    | .file _ _ => .error .corruptFilesystem
    | .dir _ centries =>
      match name83toNormal (nameNormalTo83 seg) with
      | .error e => .error e
      | .ok nm =>
        match findEntryGo nm centries with
        | .error e => .error e
        | .ok none => .ok none
        | .ok (some next) =>
          if rest ≠ [] ∧ next.isDirB = false then .ok none
          else traverseEntriesGo next (acc ++ [next]) rest

def stripSlashes : List Char → List Char
  | '/' :: r => stripSlashes r
  | l => l

def splitPath : List Char → List (List Char)
  | [] => [[]]
  | c :: r =>
    if c = '/' then [] :: splitPath r
    else
      match splitPath r with
      | [] => [[c]]
      | s :: rest => (c :: s) :: rest

def traverseEntries (root : CachedEntry) (path : List Char) :
    Except FatError (Option (List CachedEntry)) :=
  traverseEntriesGo root [root]
    ((splitPath (stripSlashes path)).filter (fun e => !e.isEmpty))

theorem truncate_eq_take (k : Nat) (l : List Char) :
    (if k < l.length then l.take k else l) = l.take k := by
  split
  · rfl
  · rw [List.take_of_length_le (by omega)]

theorem nameNormalTo83_eq_of_agree (s1 s2 : List Char)
    (hn : (splitExt s1).1.take 8 = (splitExt s2).1.take 8)
    (he : (splitExt s1).2.take 3 = (splitExt s2).2.take 3) :
    nameNormalTo83 s1 = nameNormalTo83 s2 := by
  simp only [nameNormalTo83]
  rw [truncate_eq_take, truncate_eq_take, truncate_eq_take, truncate_eq_take, hn, he]

theorem traverseGo_congr (segs1 : List (List Char)) :
    ∀ segs2 (current : CachedEntry) (acc : List CachedEntry),
    segs1.length = segs2.length →
    (∀ i, i < segs1.length →
      nameNormalTo83 (segs1.getD i []) = nameNormalTo83 (segs2.getD i [])) →
    traverseEntriesGo current acc segs1 = traverseEntriesGo current acc segs2 := by
  induction segs1 with
  | nil =>
    intro segs2 current acc hlen _
    cases segs2 with
    | nil => rfl
    | cons s r => simp at hlen
  | cons s1 r1 ih =>
    intro segs2 current acc hlen hsg
    cases segs2 with
    | nil => simp at hlen
    | cons s2 r2 =>
      have h0 : nameNormalTo83 s1 = nameNormalTo83 s2 := hsg 0 (by simp)
      cases current with
      | file fn a => rfl
      | dir fn es =>
        simp only [traverseEntriesGo, h0]
        cases hnm : name83toNormal (nameNormalTo83 s2) with
        | error e => rfl
        | ok nm =>
          show (match findEntryGo nm es with
              | Except.error e => Except.error e
              | Except.ok none => Except.ok none
              | Except.ok (some next) =>
                if r1 ≠ [] ∧ next.isDirB = false then Except.ok none
                else traverseEntriesGo next (acc ++ [next]) r1) =
            (match findEntryGo nm es with
              | Except.error e => Except.error e
              | Except.ok none => Except.ok none
              | Except.ok (some next) =>
                if r2 ≠ [] ∧ next.isDirB = false then Except.ok none
                else traverseEntriesGo next (acc ++ [next]) r2)
          cases hf : findEntryGo nm es with
          | error e => rfl
          | ok o =>
            cases o with
            | none => rfl
            | some nxt =>
              show (if r1 ≠ [] ∧ nxt.isDirB = false then Except.ok none
                  else traverseEntriesGo nxt (acc ++ [nxt]) r1) =
                (if r2 ≠ [] ∧ nxt.isDirB = false then Except.ok none
                  else traverseEntriesGo nxt (acc ++ [nxt]) r2)
              have hlen' : r1.length = r2.length := by simpa using hlen
              by_cases hr : r1 = []
              · subst hr
                have hr2 : r2 = [] := List.eq_nil_of_length_eq_zero hlen'.symm
                subst hr2
                rfl
              · have hr2 : r2 ≠ [] := by
                  intro hc
                  subst hc
                  exact hr (List.eq_nil_of_length_eq_zero hlen')
                by_cases hd : nxt.isDirB = false
                · rw [if_pos ⟨hr, hd⟩, if_pos ⟨hr2, hd⟩]
                · rw [if_neg (fun hc => hd hc.2), if_neg (fun hc => hd hc.2)]
                  exact ih r2 nxt (acc ++ [nxt]) hlen'
                    (fun i hi => hsg (i + 1) (by simpa using hi))

/-- **C10**: path traversal truncates each segment to its 8.3 form before
matching: the traversal loop resolves each segment as
`name83toNormal(nameNormalTo83(segment))`, so two segment lists whose stems
agree on the first 8 characters and whose extensions agree on the first 3
characters (segmentwise) traverse to exactly the same result — e.g. looking up
`LONGFILENAME.TEXT` finds the entry named `LONGFILE.TEX`. -/
theorem traverse_83_truncation (root : CachedEntry) (segs1 segs2 : List (List Char))
    (hlen : segs1.length = segs2.length)
    (hagree : ∀ i, i < segs1.length →
      (splitExt (segs1.getD i [])).1.take 8 = (splitExt (segs2.getD i [])).1.take 8 ∧
      (splitExt (segs1.getD i [])).2.take 3 = (splitExt (segs2.getD i [])).2.take 3) :
    traverseEntriesGo root [root] segs1 = traverseEntriesGo root [root] segs2 :=
  traverseGo_congr segs1 segs2 root [root] hlen
    (fun i hi => nameNormalTo83_eq_of_agree _ _ (hagree i hi).1 (hagree i hi).2)

theorem traverse_83_truncation_witness :
    (["LONGFILENAME.TEXT".toList].length = ["LONGFILE.TEX".toList].length) ∧
    ((splitExt "LONGFILENAME.TEXT".toList).1.take 8 =
      (splitExt "LONGFILE.TEX".toList).1.take 8) ∧
    ((splitExt "LONGFILENAME.TEXT".toList).2.take 3 =
      (splitExt "LONGFILE.TEX".toList).2.take 3) ∧
    traverseEntriesGo (.dir [] [.file "LONGFILETEX".toList 0])
        [.dir [] [.file "LONGFILETEX".toList 0]] ["LONGFILENAME.TEXT".toList] =
      traverseEntriesGo (.dir [] [.file "LONGFILETEX".toList 0])
        [.dir [] [.file "LONGFILETEX".toList 0]] ["LONGFILE.TEX".toList] :=
  ⟨by decide, by decide, by decide,
   traverse_83_truncation (.dir [] [.file "LONGFILETEX".toList 0])
     ["LONGFILENAME.TEXT".toList] ["LONGFILE.TEX".toList] (by decide)
     (by decide)⟩

/-! ## C9: `FatFilesystem.delete` (`high-level.ts`)

The FAT is modelled at logical entry granularity like the allocator above
(`fat_packing`-style byte packing is verified separately by `fat12_packing`);
an out-of-range logical read yields `0`, which ends the chain walk exactly
where the in-range walk of C8 would.  `getClusterChainFromFATL` is the same
loop as `getClusterChainFromFAT` over the logical FAT. -/

def getClusterChainFromFATLGo (fat : List Nat) (eoc : List Nat) (links : List Nat)
    (link : Nat) : Except FatError (List Nat) :=
  let next := readFATClusterEntryL fat link
  if next ∈ eoc ++ [0x00] then .ok links
  else if next ∈ links then .error .infiniteAllocationLoop
  else getClusterChainFromFATLGo fat eoc (links ++ [next]) next
termination_by
  ((Finset.range fat.length \ links.toFinset).card,
   if link < fat.length then 1 else 0)
decreasing_by
  simp_wf
  rename_i heoc hmem
  have hne0 : next ≠ 0 := by
    intro hc
    exact heoc (by rw [hc]; simp)
  have hlinklt : link < fat.length := by
    by_contra hge
    apply hne0
    show readFATClusterEntryL fat link = 0
    unfold readFATClusterEntryL
    rw [List.getD_eq_getElem?_getD, List.getElem?_eq_none (by omega)]
    rfl
  by_cases hlt : next < fat.length
  · apply Prod.Lex.left
    apply Finset.card_lt_card
    have hsub : Finset.range fat.length \ (links.toFinset ∪ {next}) ⊆
        Finset.range fat.length \ links.toFinset :=
      Finset.sdiff_subset_sdiff (le_refl _) Finset.subset_union_left
    rw [Finset.ssubset_iff_of_subset hsub]
    refine ⟨next, ?_, ?_⟩
    · simp only [Finset.mem_sdiff, Finset.mem_range, List.mem_toFinset]
      exact ⟨hlt, hmem⟩
    · simp
  · have hcard : (Finset.range fat.length \
        (links.toFinset ∪ {next})).card =
        (Finset.range fat.length \ links.toFinset).card := by
      congr 1
      ext x
      by_cases hx2 : x = next
      · subst hx2
        simp [Finset.mem_sdiff, Finset.mem_union, Finset.mem_singleton,
          Finset.mem_range, hlt]
      · simp [Finset.mem_sdiff, Finset.mem_union, Finset.mem_singleton,
          Finset.mem_range, hx2]
    rw [hcard, if_pos hlinklt, if_neg hlt]
    exact Prod.Lex.right _ (by omega)

def getClusterChainFromFATL (fat : List Nat) (eoc : List Nat) (initial : Nat) :
    Except FatError (List Nat) :=
  getClusterChainFromFATLGo fat eoc [initial] initial

/-- `CachedFatDirectoryEntry` with the fields `delete` touches: a plain entry,
or a `CachedDirectory` with its `underlying` raw entry (`null` for the root)
and its cached child entries (`getEntries()` / `rawDirectoryEntries`). -/
inductive CachedEntryR where
  | file (e : FatFSDirectoryEntry)
  | dir (underlying : Option FatFSDirectoryEntry) (entries : List CachedEntryR)

/-- The tail of `delete` once `rawEntry` is picked: mark the first filename
byte `0xE5` and clear `_filenameStr`, walk the chain from
`firstClusterAddressLow | firstClusterAddressHigh << 16`, hand the list to
`addClusterListToFreelist`, then zero each chain entry in the FAT.  A negative
cluster (possible through the sign-extension bug of C5) indexes the `DataView`
out of range.  The parent-cache `splice` and `markAsAltered` bookkeeping have
no bearing on the claim and are not modelled. -/
def deleteRaw (ft : FatType) (rawEntry : FatFSDirectoryEntry) (st : ClusterAllocator) :
    Except FatError (FatFSDirectoryEntry × ClusterAllocator) :=
  let mutated := { rawEntry with
    filename := rawEntry.filename.set 0 0xE5
    filenameStr := [] }
  let cluster := jsOr rawEntry.firstClusterAddressLow
    (jsShl rawEntry.firstClusterAddressHigh 16)
  if cluster < 0 then .error .rangeError
  else
    match getClusterChainFromFATL st.fat (endOfChainList ft) cluster.toNat with
    | .error e => .error e
    | .ok chain =>
      let st1 := st.addClusterListToFreelist chain
      let fat2 := chain.foldl (fun f e => writeFATClusterEntryL f e 0) st1.fat
      .ok (mutated, { st1 with fat := fat2 })

/-- `delete` after `traverseEntries` succeeded (`tree` is the returned root
list): `const [parent, entry] = tree.slice(-2)`, the non-empty-directory
check, the not-found check, then `deleteRaw` on `entry.underlying ?? entry`. -/
def deleteResolved (ft : FatType) (tree : List CachedEntryR) (st : ClusterAllocator) :
    Except FatError (FatFSDirectoryEntry × ClusterAllocator) :=
  match tree.drop (tree.length - 2) with
  | [parent, entry] =>
    match entry with
    | .dir u2 es2 =>
      if 2 < es2.length then .error .nonEmptyDirectory
      else
        match parent with
        | .dir _ _ =>
          match u2 with
          | some ue => deleteRaw ft ue st
          | none => .error .corruptFilesystem
        | .file _ => .error .notFound
    | .file fe =>
      match parent with
      | .dir _ _ => deleteRaw ft fe st
      | .file _ => .error .notFound
  | _ => .error .notFound

theorem drop_append_two {a : Type} (pre : List a) (x y : a) :
    (pre ++ [x, y]).drop ((pre ++ [x, y]).length - 2) = [x, y] := by
  rw [List.length_append]
  simp only [List.length_cons, List.length_nil]
  rw [show pre.length + (0 + 1 + 1) - 2 = pre.length from by omega]
  exact List.drop_left _ _

/-- **C9**: after `delete` resolves a path to a file entry under a directory
and the chain walk succeeds, the mutated entry's first filename byte is `0xE5`
(`FAT_MARKER_DELETED`), and every cluster of the former chain ends with
`freemap[c] = true` (via `addClusterListToFreelist`) and `FAT[c] = 0` (via the
subsequent zeroing loop); and when the resolved entry is a directory with more
than two cached entries, `delete` raises the non-empty-directory error and
performs none of this. -/
theorem delete_postconditions (ft : FatType) (pre : List CachedEntryR)
    (pu : Option FatFSDirectoryEntry) (pes : List CachedEntryR)
    (fe : FatFSDirectoryEntry) (st : ClusterAllocator) (chain : List Nat)
    (hpos : 0 ≤ jsOr fe.firstClusterAddressLow (jsShl fe.firstClusterAddressHigh 16))
    (hchain : getClusterChainFromFATL st.fat (endOfChainList ft)
      (jsOr fe.firstClusterAddressLow (jsShl fe.firstClusterAddressHigh 16)).toNat =
      .ok chain)
    (hfn : fe.filename ≠ [])
    (hb : ∀ c ∈ chain, c < st.freemap.length ∧ c < st.fat.length) :
    (∃ st' : ClusterAllocator,
      deleteResolved ft (pre ++ [.dir pu pes, .file fe]) st =
        .ok ({ fe with
          filename := fe.filename.set 0 0xE5
          filenameStr := [] }, st') ∧
      (fe.filename.set 0 0xE5).getD 0 0 = 0xE5 ∧
      ∀ c ∈ chain, st'.freemap.getD c false = true ∧ st'.fat.getD c 0 = 0) ∧
    ∀ (pu2 : Option FatFSDirectoryEntry) (pes2 : List CachedEntryR), 2 < pes2.length →
      deleteResolved ft (pre ++ [.dir pu pes, .dir pu2 pes2]) st =
        .error .nonEmptyDirectory := by
  constructor
  · have hstep : deleteResolved ft (pre ++ [.dir pu pes, .file fe]) st =
        deleteRaw ft fe st := by
      unfold deleteResolved
      rw [drop_append_two]
    refine ⟨{ st.addClusterListToFreelist chain with
        fat := chain.foldl (fun f e => writeFATClusterEntryL f e 0)
          (st.addClusterListToFreelist chain).fat }, ?_, ?_, ?_⟩
    · rw [hstep]
      simp only [deleteRaw]
      rw [if_neg (by omega), hchain]
    · cases hfe : fe.filename with
      | nil => exact absurd hfe hfn
      | cons x r => rfl
    · intro c hc
      have hfm : (st.addClusterListToFreelist chain).freemap =
          chain.foldl (fun fm e => fm.set e true) st.freemap := rfl
      have hfat : (st.addClusterListToFreelist chain).fat = st.fat := rfl
      constructor
      · show (chain.foldl (fun fm e => fm.set e true) st.freemap).getD c false = true
        rw [foldl_set_getD, if_pos ⟨hc, (hb c hc).1⟩]
      · show (chain.foldl (fun f e => writeFATClusterEntryL f e 0)
            (st.addClusterListToFreelist chain).fat).getD c 0 = 0
        rw [hfat]
        have hw : (fun (f : List Nat) (e : Nat) => writeFATClusterEntryL f e 0) =
            (fun (acc : List Nat) (i : Nat) => acc.set i 0) := rfl
        rw [hw, foldl_set_getD, if_pos ⟨hc, (hb c hc).2⟩]
  · intro pu2 pes2 hlen2
    have hstep2 : deleteResolved ft (pre ++ [.dir pu pes, .dir pu2 pes2]) st =
        (if 2 < pes2.length then Except.error FatError.nonEmptyDirectory
         else
           match pu2 with
           | some ue => deleteRaw ft ue st
           | none => Except.error FatError.corruptFilesystem) := by
      unfold deleteResolved
      rw [drop_append_two]
    rw [hstep2, if_pos hlen2]

def direntC9 : FatFSDirectoryEntry :=
  { filename := [65, 66, 67, 32, 32, 32, 32, 32, 84, 88, 84]
    attribs := 32
    reserved := 0
    creationDate := [0, 0, 0, 0, 0]
    accessedDate := [0, 0]
    firstClusterAddressHigh := 0
    writtenDate := [0, 0, 0, 0]
    firstClusterAddressLow := 2
    fileSize := 42
    filenameStr := [65, 66, 67]
    lfns := 0 }

def allocC9 : ClusterAllocator :=
  ⟨[], [false, false, false, false], [0, 0, 3, 0xFFF8]⟩

theorem delete_postconditions_witness :
    getClusterChainFromFATL allocC9.fat (endOfChainList .Fat16)
        (jsOr direntC9.firstClusterAddressLow
          (jsShl direntC9.firstClusterAddressHigh 16)).toNat = .ok [2, 3] ∧
    ((∃ st' : ClusterAllocator,
      deleteResolved .Fat16 ([] ++ [.dir none [], .file direntC9]) allocC9 =
        .ok ({ direntC9 with
          filename := direntC9.filename.set 0 0xE5
          filenameStr := [] }, st') ∧
      (direntC9.filename.set 0 0xE5).getD 0 0 = 0xE5 ∧
      ∀ c ∈ [2, 3], st'.freemap.getD c false = true ∧ st'.fat.getD c 0 = 0) ∧
    ∀ (pu2 : Option FatFSDirectoryEntry) (pes2 : List CachedEntryR), 2 < pes2.length →
      deleteResolved .Fat16 ([] ++ [.dir none [], .dir pu2 pes2]) allocC9 =
        .error .nonEmptyDirectory) := by
  have hch : getClusterChainFromFATL allocC9.fat (endOfChainList .Fat16)
      (jsOr direntC9.firstClusterAddressLow
        (jsShl direntC9.firstClusterAddressHigh 16)).toNat = .ok [2, 3] := by
    show getClusterChainFromFATL [0, 0, 3, 0xFFF8] (endOfChainList .Fat16) 2 = .ok [2, 3]
    unfold getClusterChainFromFATL
    rw [getClusterChainFromFATLGo.eq_def]
    simp only [readFATClusterEntryL]
    rw [if_neg (by decide), if_neg (by decide)]
    rw [getClusterChainFromFATLGo.eq_def]
    simp only [readFATClusterEntryL]
    rw [if_pos (by decide)]
    rfl
  exact ⟨hch, delete_postconditions .Fat16 [] none [] direntC9 allocC9 [2, 3]
    (by decide) hch (by decide) (by decide)⟩
